import Mathlib

/-! model_maker: annotation parser, table builder and SQL / query emitters.

A shallow embedding of `src/main.go`.

Go strings are modelled as lists of characters (`Str`).  Every index the
program computes on a string (`tag[1:]`, `name[4:len(name)-1]`,
`f.Name[3:]`, `gen[5:len(gen)-1]`, `def[8:len(def)-1]`) is a slice
expression; a slice whose bounds are out of range aborts the program, which
is modelled by `none`.

The three calls into Go's `regexp` package (`MustCompilePOSIX`,
`FindString`, `MatchString`) are modelled by a small matcher with the
leftmost-longest semantics that `MustCompilePOSIX` selects.  The patterns of
the program only use literal characters and `+` applied to a character set,
so a pattern is a list of such atoms.
-/

namespace ModelMaker

/-- A Go string. -/
abbrev Str := List Char

/-! ## Go string primitives -/

/-- The slice expression `s[lo:hi]`: aborts (`none`) unless
`0 ≤ lo ≤ hi ≤ len(s)`. -/
def slice (s : Str) (lo hi : Int) : Option Str :=
  if 0 ≤ lo ∧ lo ≤ hi ∧ hi ≤ (s.length : Int) then
    some ((s.drop lo.toNat).take (hi.toNat - lo.toNat))
  else none

/-- The pieces of `strings.Split(s, sep)` for a one-character separator,
with `cur` the piece being read. -/
def splitGo (sep : Char) : Str → Str → List Str
  | cur, [] => [cur]
  | cur, c :: cs => if c = sep then cur :: splitGo sep [] cs else splitGo sep (cur ++ [c]) cs

/-- Go `strings.Split(s, sep)` for a one-character separator: always at least
one piece. -/
def Split (s : Str) (sep : Char) : List Str := splitGo sep [] s

/-- Go `strings.Join(elems, sep)`. -/
def Join : List Str → Str → Str
  | [], _ => []
  | [a], _ => a
  | a :: b :: rest, sep => a ++ sep ++ Join (b :: rest) sep

/-! ## Regular expressions (POSIX leftmost-longest) -/

/-- One atom of a pattern: a literal character, or `[set]+` / `.+`. -/
inductive Atom where
  | lit (c : Char)
  | plus (set : Char → Bool)

/-- A compiled pattern: a sequence of atoms. -/
abbrev Regexp := List Atom

/-- One or more characters of `set`, followed by something accepted by `k`. -/
def plusMatch (set : Char → Bool) (k : Str → Bool) : Str → Bool
  | [] => false
  | x :: xs => set x && (k xs || plusMatch set k xs)

/-- The pattern matches the whole of the string. -/
def matchesWhole : Regexp → Str → Bool
  | [], s => s.isEmpty
  | Atom.lit c :: r, s =>
    match s with
    | [] => false
    | x :: xs => decide (x = c) && matchesWhole r xs
  | Atom.plus set :: r, s => plusMatch set (matchesWhole r) s

/-- The length of the longest prefix of `s` the pattern matches, if any. -/
def longestPrefix (re : Regexp) (s : Str) : Option Nat :=
  (List.range (s.length + 1)).reverse.find? (fun n => matchesWhole re (s.take n))

/-- The leftmost match, and among the matches starting there the longest. -/
def Regexp.find (re : Regexp) : Str → Option Str
  | [] => (longestPrefix re []).map (fun n => List.take n [])
  | x :: xs =>
    match longestPrefix re (x :: xs) with
    | some n => some ((x :: xs).take n)
    | none => Regexp.find re xs

/-- Go `(*Regexp).FindString`: the text of the leftmost match, or the empty
string when there is none. -/
def Regexp.FindString (re : Regexp) (s : Str) : Str := (re.find s).getD []

/-- Go `(*Regexp).MatchString`. -/
def Regexp.MatchString (re : Regexp) (s : Str) : Bool := (re.find s).isSome

/-- Characters `a-z0-9`. -/
def lowerDigit (c : Char) : Bool :=
  (decide ('a' ≤ c) && decide (c ≤ 'z')) || (decide ('0' ≤ c) && decide (c ≤ '9'))

/-- The set `[a-z0-9\-_]`. -/
def nameSet (c : Char) : Bool := lowerDigit c || decide (c = '-') || decide (c = '_')

/-- The set `[a-z0-9\-_,\'\'\(\)]`. -/
def genSet (c : Char) : Bool :=
  lowerDigit c || decide (c = '-') || decide (c = '_') || decide (c = ',') ||
    decide (c = '\'') || decide (c = '(') || decide (c = ')')

/-- The set of `.`: any character but a newline. -/
def dotSet (c : Char) : Bool := !decide (c = '\n')

/-- Pattern `db:\"([a-z0-9\-_]+)\"`. -/
def dbRe : Regexp :=
  [Atom.lit 'd', Atom.lit 'b', Atom.lit ':', Atom.lit '"', Atom.plus nameSet, Atom.lit '"']

/-- Pattern `id_([a-z0-9]+)`. -/
def idRe : Regexp := [Atom.lit 'i', Atom.lit 'd', Atom.lit '_', Atom.plus lowerDigit]

/-- Pattern `gen:"([a-z0-9\-_,\'\'\(\)]+)"`. -/
def genRe : Regexp :=
  [Atom.lit 'g', Atom.lit 'e', Atom.lit 'n', Atom.lit ':', Atom.lit '"', Atom.plus genSet,
    Atom.lit '"']

/-- Pattern `default\(.+\)`. -/
def defaultRe : Regexp :=
  [Atom.lit 'd', Atom.lit 'e', Atom.lit 'f', Atom.lit 'a', Atom.lit 'u', Atom.lit 'l',
    Atom.lit 't', Atom.lit '(', Atom.plus dotSet, Atom.lit ')']

/-! ## The data model -/

/-- `type Field struct` (the field `Type` is spelled `Typ`: `Type` is reserved). -/
structure Field where
  Name : Str := []
  Typ : Str := []
  Default : Str := []
  NotNull : Bool := false
  Uniqeu : Bool := false
  AutoIncrement : Bool := false
  Primary : Bool := false
  Index : Bool := false
  Foreign : Bool := false
  ForeignTable : Str := []
  deriving DecidableEq, Repr

/-- `type Table struct`. -/
structure Table where
  Name : Str
  Fields : List Field
  deriving DecidableEq, Repr

/-! ## The annotation parser -/

/-- The body of the loop `for _, opt := range opts` of `parseTag`. -/
def optStep (f : Field) (opt : Str) : Option Field :=
  if opt = f.Typ then some f
  else if opt = "autoincrement".toList then some { f with AutoIncrement := true }
  else if opt = "notnull".toList then some { f with NotNull := true }
  else if opt = "primary".toList then some { f with Primary := true }
  else if opt = "unique".toList then some { f with Uniqeu := true }
  else if opt = "index".toList then some { f with Index := true }
  else
    let d := defaultRe.FindString opt
    (slice d 8 ((d.length : Int) - 1)).bind fun v => some { f with Default := v }

/-- The loop `for _, opt := range opts` of `parseTag`. -/
def optLoop : Field → List Str → Option Field
  | f, [] => some f
  | f, opt :: rest => (optStep f opt).bind fun g => optLoop g rest

/-- `func (f *Field) parseTag(tag string)`: the receiver after the call, or
`none` when a slice expression aborts. -/
def Field.parseTag (f : Field) (tag : Str) : Option Field :=
  (slice tag 1 tag.length).bind fun tag =>
  let name := dbRe.FindString tag
  if name = "-".toList then some f
  else
    (slice name 4 ((name.length : Int) - 1)).bind fun nm =>
    let f := { f with Name := nm }
    (if idRe.MatchString f.Name then
        (slice f.Name 3 f.Name.length).bind fun ft =>
          some { f with Foreign := true, ForeignTable := ft }
      else some f).bind fun f =>
    let gen := genRe.FindString tag
    if gen.length < 6 then some f
    else
      (slice gen 5 ((gen.length : Int) - 1)).bind fun body =>
      let opts := Split body ','
      (if opts.length > 0 then
          (opts.head?).bind fun t => some { f with Typ := t }
        else some f).bind fun f =>
      optLoop f opts

/-- `func NewField(tagStr string) (f Field)`. -/
def NewField (tagStr : Str) : Option Field := Field.parseTag {} tagStr

/-! ## The DDL generator -/

/-- `func (f *Field) genereateSQL() (sql string)`. -/
def Field.genereateSQL (f : Field) : Str :=
  let sql := f.Name ++ " ".toList ++ f.Typ
  let sql := if f.AutoIncrement then sql ++ " AUTO_INCREMENT".toList else sql
  let sql := if f.NotNull then sql ++ " NOT NULL".toList else sql
  let sql := if f.Default ≠ [] then sql ++ (" DEFAULT ".toList ++ f.Default) else sql
  let sql := if f.Uniqeu then sql ++ " UNIQUE".toList else sql
  let sql :=
    if f.Primary then (sql ++ ",\n".toList) ++ ("PRIMARY KEY(".toList ++ f.Name ++ ")".toList)
    else sql
  let sql :=
    if f.Foreign then
      (sql ++ ",\n".toList) ++
        ("CONSTRAINT FOREIGN KEY (".toList ++ f.Name ++ ") REFERENCES ".toList ++
          f.ForeignTable ++ "(id)".toList)
    else sql
  let sql :=
    if f.Index then (sql ++ ",\n".toList) ++ ("INDEX(".toList ++ f.Name ++ "_col)".toList)
    else sql
  sql

/-- The loop `for _, f := range t.Fields { cols = append(cols, g(f)) }`. -/
def collect (g : Field → Str) (fields : List Field) : List Str :=
  fields.foldl (fun cols f => cols ++ [g f]) []

/-- `func (t Table) genereateSQL() (sql string)`. -/
def Table.genereateSQL (t : Table) : Str :=
  let sql := "CREATE TABLE ".toList ++ t.Name ++ " \x7b\n".toList
  let cols := collect (fun f => "\t".toList ++ f.genereateSQL) t.Fields
  let sql := sql ++ Join cols ",\n".toList
  sql ++ "\n\x7d".toList

/-! ## The data-access code generator

The flag `*structName` is the parameter `structName`. -/

/-- `func (t Table) genereateSelectConst() (cnst string)`. -/
def Table.genereateSelectConst (structName : Str) (t : Table) : Str :=
  let cnst := "select".toList ++ structName ++ " = `SELECT ".toList
  let cols := collect (fun f => f.Name) t.Fields
  let cnst := cnst ++ Join cols ", ".toList
  cnst ++ (" FROM ".toList ++ t.Name ++ " /*condition*/`".toList)

/-- `func (t Table) genereateInsertConst() (cnst string)`. -/
def Table.genereateInsertConst (structName : Str) (t : Table) : Str :=
  let cnst := "insert".toList ++ structName ++ " = `INSERT INTO ".toList ++ t.Name
  let cnst := cnst ++ " (".toList
  let cols := collect (fun f => f.Name) t.Fields
  let cnst := cnst ++ Join cols ", ".toList
  let cnst := cnst ++ " )".toList
  let cnst := cnst ++ " VALUES (".toList
  let cols := collect (fun f => ":".toList ++ f.Name) t.Fields
  let cnst := cnst ++ Join cols ", ".toList
  cnst ++ " )`".toList

/-- `func (t Table) genereateCountConst() (cnst string)`. -/
def Table.genereateCountConst (structName : Str) (t : Table) : Str :=
  "count".toList ++ structName ++ " = `SELECT COUNT(*) FROM ".toList ++ t.Name ++ "`".toList

/-- The loop of `genereateUpdateConst`: the state is `(cols, primary)`. -/
def updateLoop : List Str × Str → List Field → List Str × Str
  | st, [] => st
  | (cols, primary), f :: rest =>
    if f.Primary then updateLoop (cols, f.Name ++ "=:".toList ++ f.Name) rest
    else updateLoop (cols ++ [f.Name ++ "=:".toList ++ f.Name], primary) rest

/-- `func (t Table) genereateUpdateConst() (cnst string)`. -/
def Table.genereateUpdateConst (structName : Str) (t : Table) : Str :=
  let cnst := "update".toList ++ structName ++ " = `UPDATE ".toList ++ t.Name ++ " SET ".toList
  let st := updateLoop ([], []) t.Fields
  let cnst := cnst ++ Join st.1 ", ".toList
  cnst ++ (" WHERE ".toList ++ st.2 ++ "`".toList)

/-- `func (t Table) genereateLimitFunc() (textFunc string)`. -/
def Table.genereateLimitFunc (structName : Str) (_t : Table) : Str :=
  "\nfunc ".toList ++
    structName ++
    "SelectLimit(limit int) (models []".toList ++
    structName ++
    ", err error) \x7b\n  query := easydb.Condition(insert".toList ++
    structName ++
    ", \" limit ? \")\n  err = easydb.Select(&models, query, limit)\n  if err != nil \x7b\n    return models, err\n  \x7d\n  return models, nil\n\x7d\n".toList

/-- `func (t Table) genereateCountFunc() (textFunc string)`. -/
def Table.genereateCountFunc (structName : Str) (_t : Table) : Str :=
  "\nfunc ".toList ++
    structName ++
    "Count() (count int, err error) \x7b\n  err = easydb.Get(&count, count".toList ++
    structName ++
    ")\n  if err != nil \x7b\n    return count, err\n  \x7d\n  return count, err\n\x7d\n".toList

/-- `func (t Table) genereateUpdateFunc() (textFunc string)`. -/
def Table.genereateUpdateFunc (structName : Str) (_t : Table) : Str :=
  "\nfunc (model *".toList ++
    structName ++
    ") Update() (err error) \x7b\n  _, err = easydb.NamedExec(update".toList ++
    structName ++
    ", model)\n  if err != nil \x7b\n    return err\n  \x7d\n  return nil\n\x7d\n".toList

/-- `func (t Table) genereateInsertFunc() (textFunc string)`. -/
def Table.genereateInsertFunc (structName : Str) (_t : Table) : Str :=
  "\nfunc (model *".toList ++
    structName ++
    ") Insert() (err error) \x7b\n  var res sql.Result\n  res, err = easydb.NamedExec(insert".toList ++
    structName ++
    ", model)\n  if err != nil \x7b\n    return err\n  \x7d\n  model.ID, err = res.LastInsertId()\n  if err != nil \x7b\n    return err\n  \x7d\n  return nil\n\x7d\n".toList

/-! ## The table model builder (`main`, the loop over `structType.Fields.List`) -/

/-- The loop `for _, field := range structType.Fields.List`: a source field
is its tag value, `none` when `field.Tag == nil`. -/
def buildLoop : List Field → List (Option Str) → Option (List Field)
  | acc, [] => some acc
  | acc, none :: rest => buildLoop acc rest
  | acc, some tag :: rest =>
    (NewField tag).bind fun f =>
      if f.Name ≠ "-".toList then buildLoop (acc ++ [f]) rest else buildLoop acc rest

/-- The table `main` builds: `table.Name = *tableName` and the fields of the
loop. -/
def build (tableName : Str) (srcs : List (Option Str)) : Option Table :=
  (buildLoop [] srcs).map fun fs => { Name := tableName, Fields := fs }

/-- The struct `User` of `example/user.go`: the tag values of its fields. -/
def userTags : List (Option Str) :=
  [ some "`db:\"id\",gen:\"bigint,autoincrement,notnull,primary\"`".toList,
    some "`db:\"name\",gen:\"varchar(512),notnull\"`".toList,
    some "`db:\"dt_created\",gen:\"datetime,notnull\"`".toList,
    some "`db:\"dt_last_login\",gen:\"datetime,notnull\"`".toList,
    some "`db:\"login\",gen:\"varchar(512),notnull,unique,index\"`".toList,
    some "`db:\"pwd_hash\",gen:\"varchar(512),notnull\"`".toList ]

/-- The receiver of `parseTag` (initially the zero `Field`) after lines 43-48,
when the column name read from the `db` sub-annotation is `nm`. -/
def afterName (nm : Str) : Field :=
  if idRe.MatchString nm then { Name := nm, Foreign := true, ForeignTable := nm.drop 3 }
  else { Name := nm }

/-- The option keywords of `parseTag`. -/
def keywords : List Str :=
  ["autoincrement".toList, "notnull".toList, "primary".toList, "unique".toList, "index".toList]

/-- The `db` sub-annotation that `parseTag` reads in the annotation is
`db:"-"`, the sentinel. -/
def isSentinel (tag : Str) : Bool :=
  decide (dbRe.FindString (tag.drop 1) = "db:\"-\"".toList)

/-- The number of source fields that carry an annotation. -/
def annotated (srcs : List (Option Str)) : Nat := srcs.countP fun o => o.isSome

/-- The number of source fields whose annotation has the sentinel `db` value. -/
def sentinels (srcs : List (Option Str)) : Nat :=
  srcs.countP fun o => match o with
    | some tag => isSentinel tag
    | none => false

/-- The option list `opts` of `parseTag` (lines 49-54) on the annotation text
`tag` (the annotation after `tag[1:]`); empty when no `gen` sub-annotation is
found. -/
def genTokens (tag : Str) : List Str :=
  let gen := genRe.FindString tag
  if gen.length < 6 then []
  else
    match slice gen 5 ((gen.length : Int) - 1) with
    | some body => Split body ','
    | none => []

/-- The field the tag of `Login` in `example/user.go` parses to. -/
def loginField : Field :=
  { Name := "login".toList, Typ := "varchar(512)".toList, NotNull := true, Uniqeu := true,
    Index := true }

/-- The field that the annotation `db:"paid_at",gen:"datetime"` parses to. -/
def paidField : Field :=
  { Name := "paid_at".toList, Typ := "datetime".toList, Foreign := true,
    ForeignTable := "d_at".toList }

/-- The field that the annotation `db:"id_user",gen:"bigint,notnull"` parses to. -/
def refField : Field :=
  { Name := "id_user".toList, Typ := "bigint".toList, NotNull := true, Foreign := true,
    ForeignTable := "user".toList }

/-- The field the tag of `ID` in `example/user.go` parses to. -/
def userID : Field :=
  { Name := "id".toList, Typ := "bigint".toList, AutoIncrement := true, NotNull := true,
    Primary := true }

/-- The field the tag of `Name` in `example/user.go` parses to. -/
def nameField : Field :=
  { Name := "name".toList, Typ := "varchar(512)".toList, NotNull := true }

/-- The table `main` builds for `-struct=User -table=user` on `example/user.go`. -/
def userTable : Table :=
  { Name := "user".toList
    Fields :=
      [ userID,
        nameField,
        { Name := "dt_created".toList, Typ := "datetime".toList, NotNull := true },
        { Name := "dt_last_login".toList, Typ := "datetime".toList, NotNull := true },
        { Name := "login".toList, Typ := "varchar(512)".toList, NotNull := true,
          Uniqeu := true, Index := true },
        { Name := "pwd_hash".toList, Typ := "varchar(512)".toList, NotNull := true } ] }

/-! ## Lemmas on the string primitives -/

theorem append_ite (c : Prop) [Decidable c] (a x : Str) :
    (if c then a ++ x else a) = a ++ if c then x else [] := by
  split <;> simp

theorem collect_eq_map (g : Field → Str) (fields : List Field) :
    collect g fields = fields.map g := by
  have h : ∀ (fs : List Field) (acc : List Str),
      fs.foldl (fun cols f => cols ++ [g f]) acc = acc ++ fs.map g := by
    intro fs
    induction fs with
    | nil => intro acc; simp
    | cons a rest ih => intro acc; simp [ih]
  simpa [collect] using h fields []

theorem Join_eq_intercalate (xs : List Str) (sep : Str) :
    Join xs sep = List.intercalate sep xs := by
  induction xs with
  | nil => rfl
  | cons a rest ih =>
    cases rest with
    | nil => simp [Join, List.intercalate]
    | cons b rest =>
      rw [Join, ih]
      simp [List.intercalate, List.intersperse]

theorem updateLoop_eq (fs : List Field) (cols : List Str) (primary : Str) :
    updateLoop (cols, primary) fs =
      (cols ++ (fs.filter fun f => !f.Primary).map (fun f => f.Name ++ "=:".toList ++ f.Name),
        match (fs.filter fun f => f.Primary).getLast? with
        | some p => p.Name ++ "=:".toList ++ p.Name
        | none => primary) := by
  induction fs generalizing cols primary with
  | nil => simp [updateLoop]
  | cons a rest ih =>
    by_cases ha : a.Primary = true
    · rw [updateLoop, if_pos ha, ih]
      simp only [List.filter_cons, ha, Bool.not_true, Bool.false_eq_true, if_false, if_true]
      congr 1
      cases hr : (List.filter (fun f => f.Primary) rest) with
      | nil => simp
      | cons b l =>
        rw [List.getLast?_cons_cons, List.getLast?_eq_getLast _ (List.cons_ne_nil b l)]
    · rw [updateLoop, if_neg ha, ih]
      simp [List.filter_cons, ha]

/-! ## Lemmas on the matcher -/

theorem matchesWhole_nil (s : Str) : matchesWhole [] s = true ↔ s = [] := by
  cases s <;> simp [matchesWhole]

theorem matchesWhole_lit (c : Char) (r : Regexp) (s : Str) :
    matchesWhole (Atom.lit c :: r) s = true ↔ ∃ xs, s = c :: xs ∧ matchesWhole r xs = true := by
  cases s with
  | nil => simp [matchesWhole]
  | cons x xs =>
    simp only [matchesWhole, Bool.and_eq_true, decide_eq_true_eq, List.cons.injEq]
    constructor
    · rintro ⟨rfl, h⟩
      exact ⟨xs, ⟨rfl, rfl⟩, h⟩
    · rintro ⟨ys, ⟨rfl, rfl⟩, h⟩
      exact ⟨rfl, h⟩

theorem plusMatch_iff (set : Char → Bool) (k : Str → Bool) (s : Str) :
    plusMatch set k s = true ↔
      ∃ a b, s = a ++ b ∧ a ≠ [] ∧ (∀ c ∈ a, set c = true) ∧ k b = true := by
  induction s with
  | nil =>
    simp only [plusMatch, Bool.false_eq_true, false_iff]
    rintro ⟨a, b, h, ha, -⟩
    cases a with
    | nil => exact ha rfl
    | cons x a => simp at h
  | cons x xs ih =>
    simp only [plusMatch, Bool.and_eq_true, Bool.or_eq_true, ih]
    constructor
    · rintro ⟨hx, h | ⟨a, b, rfl, ha, hall, hk⟩⟩
      · exact ⟨[x], xs, rfl, by simp, by simpa using hx, h⟩
      · refine ⟨x :: a, b, rfl, by simp, ?_, hk⟩
        intro c hc
        rcases List.mem_cons.1 hc with rfl | hc
        · exact hx
        · exact hall c hc
    · rintro ⟨a, b, h, ha, hall, hk⟩
      cases a with
      | nil => exact absurd rfl ha
      | cons y a =>
        simp only [List.cons_append, List.cons.injEq] at h
        obtain ⟨rfl, rfl⟩ := h
        refine ⟨hall _ (List.mem_cons_self _ _), ?_⟩
        cases a with
        | nil => exact Or.inl hk
        | cons z a =>
          exact Or.inr ⟨z :: a, b, rfl, by simp, fun c hc => hall c (List.mem_cons_of_mem _ hc), hk⟩

theorem matchesWhole_plus (set : Char → Bool) (r : Regexp) (s : Str) :
    matchesWhole (Atom.plus set :: r) s = true ↔
      ∃ a b, s = a ++ b ∧ a ≠ [] ∧ (∀ c ∈ a, set c = true) ∧ matchesWhole r b = true := by
  rw [matchesWhole, plusMatch_iff]

theorem longestPrefix_some {re : Regexp} {s : Str} {n : Nat} (h : longestPrefix re s = some n) :
    n ≤ s.length ∧ matchesWhole re (s.take n) = true ∧
      ∀ m, m ≤ s.length → matchesWhole re (s.take m) = true → m ≤ n := by
  unfold longestPrefix at h
  have h1 := List.find?_some h
  have h2 := List.mem_of_find?_eq_some h
  simp only [List.mem_reverse, List.mem_range] at h2
  refine ⟨by omega, h1, ?_⟩
  intro m hm hmm
  by_contra hlt
  push_neg at hlt
  rw [List.find?_eq_some] at h
  obtain ⟨-, as, bs, hsplit, hnot⟩ := h
  have hmem : m ∈ (List.range (s.length + 1)).reverse := by
    simp only [List.mem_reverse, List.mem_range]; omega
  rw [hsplit] at hmem
  rcases List.mem_append.1 hmem with hin | hin
  · have := hnot m hin
    simp [hmm] at this
  · have hpw : ((List.range (s.length + 1)).reverse).Pairwise (· > ·) := by
      rw [List.pairwise_reverse]
      exact (List.pairwise_lt_range _).imp (fun h => h)
    rw [hsplit, List.pairwise_append] at hpw
    rcases List.mem_cons.1 hin with rfl | hin
    · omega
    · have := (List.pairwise_cons.1 hpw.2.1).1 m hin
      omega

theorem longestPrefix_none {re : Regexp} {s : Str} (h : longestPrefix re s = none) :
    ∀ m, m ≤ s.length → matchesWhole re (s.take m) = false := by
  unfold longestPrefix at h
  intro m hm
  have := List.find?_eq_none.1 h m (by simp only [List.mem_reverse, List.mem_range]; omega)
  simpa using this

theorem longestPrefix_of_whole {re : Regexp} {s : Str} (h : matchesWhole re s = true) :
    longestPrefix re s = some s.length := by
  cases hl : longestPrefix re s with
  | none =>
    have := longestPrefix_none hl s.length le_rfl
    simp [h] at this
  | some n =>
    obtain ⟨h1, -, h3⟩ := longestPrefix_some hl
    have := h3 s.length le_rfl (by simpa using h)
    congr 1
    omega

theorem find_sound {re : Regexp} {s r : Str} (h : re.find s = some r) :
    matchesWhole re r = true ∧ r.length ≤ s.length := by
  induction s with
  | nil =>
    simp only [Regexp.find, Option.map_eq_some'] at h
    obtain ⟨n, hn, rfl⟩ := h
    have := (longestPrefix_some hn).2.1
    simp only [List.take_nil] at this ⊢
    exact ⟨this, le_rfl⟩
  | cons x xs ih =>
    rw [Regexp.find] at h
    cases hl : longestPrefix re (x :: xs) with
    | none =>
      rw [hl] at h
      obtain ⟨h1, h2⟩ := ih h
      exact ⟨h1, by simp only [List.length_cons]; omega⟩
    | some n =>
      rw [hl] at h
      simp only [Option.some.injEq] at h
      subst h
      obtain ⟨h1, h2, -⟩ := longestPrefix_some hl
      exact ⟨h2, by simp [List.length_take]⟩

theorem find_of_whole {re : Regexp} {s : Str} (h : matchesWhole re s = true) :
    re.find s = some s := by
  cases s with
  | nil => simp [Regexp.find, longestPrefix_of_whole h]
  | cons x xs => simp [Regexp.find, longestPrefix_of_whole h]

theorem FindString_cases (re : Regexp) (s : Str) :
    (re.find s = none ∧ re.FindString s = []) ∨
      (re.find s = some (re.FindString s) ∧ matchesWhole re (re.FindString s) = true ∧
        (re.FindString s).length ≤ s.length) := by
  unfold Regexp.FindString
  cases h : re.find s with
  | none => exact Or.inl ⟨rfl, rfl⟩
  | some r => exact Or.inr ⟨rfl, find_sound h⟩

theorem FindString_of_whole {re : Regexp} {s : Str} (h : matchesWhole re s = true) :
    re.FindString s = s := by
  simp [Regexp.FindString, find_of_whole h]

/-! ## The shape of what the four patterns match -/

theorem dbRe_matches (s : Str) :
    matchesWhole dbRe s = true ↔
      ∃ nm, s = "db:\"".toList ++ nm ++ "\"".toList ∧ nm ≠ [] ∧ ∀ c ∈ nm, nameSet c = true := by
  simp only [dbRe, matchesWhole_lit, matchesWhole_plus, matchesWhole_nil]
  constructor
  · rintro ⟨_, rfl, _, rfl, _, rfl, _, rfl, a, _, rfl, ha, hall, _, rfl, rfl⟩
    exact ⟨a, by simp, ha, hall⟩
  · rintro ⟨nm, rfl, ha, hall⟩
    exact ⟨_, rfl, _, rfl, _, rfl, _, rfl, nm, _, rfl, ha, hall, _, rfl, rfl⟩

theorem genRe_matches (s : Str) :
    matchesWhole genRe s = true ↔
      ∃ body, s = "gen:\"".toList ++ body ++ "\"".toList ∧ body ≠ [] ∧
        ∀ c ∈ body, genSet c = true := by
  simp only [genRe, matchesWhole_lit, matchesWhole_plus, matchesWhole_nil]
  constructor
  · rintro ⟨_, rfl, _, rfl, _, rfl, _, rfl, _, rfl, a, _, rfl, ha, hall, _, rfl, rfl⟩
    exact ⟨a, by simp, ha, hall⟩
  · rintro ⟨nm, rfl, ha, hall⟩
    exact ⟨_, rfl, _, rfl, _, rfl, _, rfl, _, rfl, nm, _, rfl, ha, hall, _, rfl, rfl⟩

theorem idRe_matches (s : Str) :
    matchesWhole idRe s = true ↔
      ∃ sfx, s = "id_".toList ++ sfx ∧ sfx ≠ [] ∧ ∀ c ∈ sfx, lowerDigit c = true := by
  simp only [idRe, matchesWhole_lit, matchesWhole_plus, matchesWhole_nil]
  constructor
  · rintro ⟨_, rfl, _, rfl, _, rfl, a, _, rfl, ha, hall, rfl⟩
    exact ⟨a, by simp, ha, hall⟩
  · rintro ⟨nm, rfl, ha, hall⟩
    exact ⟨_, rfl, _, rfl, _, rfl, nm, _, by simp, ha, hall, rfl⟩

theorem defaultRe_matches (s : Str) :
    matchesWhole defaultRe s = true ↔
      ∃ e, s = "default(".toList ++ e ++ ")".toList ∧ e ≠ [] ∧ ∀ c ∈ e, dotSet c = true := by
  simp only [defaultRe, matchesWhole_lit, matchesWhole_plus, matchesWhole_nil]
  constructor
  · rintro ⟨_, rfl, _, rfl, _, rfl, _, rfl, _, rfl, _, rfl, _, rfl, _, rfl, a, _, rfl, ha, hall,
      _, rfl, rfl⟩
    exact ⟨a, by simp, ha, hall⟩
  · rintro ⟨nm, rfl, ha, hall⟩
    exact ⟨_, rfl, _, rfl, _, rfl, _, rfl, _, rfl, _, rfl, _, rfl, _, rfl, nm, _, rfl, ha, hall,
      _, rfl, rfl⟩

/-! ## Lemmas on slices -/

theorem slice_eq_some {s r : Str} {lo hi : Int} (h : slice s lo hi = some r) :
    0 ≤ lo ∧ lo ≤ hi ∧ hi ≤ (s.length : Int) ∧
      r = (s.drop lo.toNat).take (hi.toNat - lo.toNat) := by
  unfold slice at h
  split at h
  · rename_i hc
    simp only [Option.some.injEq] at h
    exact ⟨hc.1, hc.2.1, hc.2.2, h.symm⟩
  · simp at h

theorem slice_inner (a b c : Str) :
    slice (a ++ b ++ c) (a.length : Int) (((a ++ b ++ c).length : Int) - (c.length : Int)) =
      some b := by
  unfold slice
  have h1 : ((a ++ b ++ c).length : Int) - (c.length : Int) = ((a.length + b.length : Nat) : Int) := by
    simp only [List.length_append]; push_cast; ring
  rw [h1, if_pos]
  · simp only [Int.toNat_ofNat, List.append_assoc, List.drop_left]
    simp
  · simp only [List.length_append]
    push_cast
    omega

theorem slice_tail (s : Str) (n : Nat) (h : n ≤ s.length) :
    slice s (n : Int) (s.length : Int) = some (s.drop n) := by
  unfold slice
  rw [if_pos]
  · simp only [Int.toNat_ofNat]
    rw [List.take_of_length_le]
    simp
  · omega

theorem slice_db (nm : Str) :
    slice ("db:\"".toList ++ nm ++ "\"".toList) 4
      ((("db:\"".toList ++ nm ++ "\"".toList).length : Int) - 1) = some nm :=
  slice_inner "db:\"".toList nm "\"".toList

theorem slice_gen (body : Str) :
    slice ("gen:\"".toList ++ body ++ "\"".toList) 5
      ((("gen:\"".toList ++ body ++ "\"".toList).length : Int) - 1) = some body :=
  slice_inner "gen:\"".toList body "\"".toList

theorem slice_default (e : Str) :
    slice ("default(".toList ++ e ++ ")".toList) 8
      ((("default(".toList ++ e ++ ")".toList).length : Int) - 1) = some e :=
  slice_inner "default(".toList e ")".toList

theorem splitGo_ne_nil (sep : Char) (cur s : Str) : splitGo sep cur s ≠ [] := by
  induction s generalizing cur with
  | nil => simp [splitGo]
  | cons c cs ih =>
    rw [splitGo]
    split
    · simp
    · exact ih _

theorem Split_ne_nil (s : Str) (sep : Char) : Split s sep ≠ [] := splitGo_ne_nil sep [] s

/-! ## The parser, stage by stage -/

theorem MatchString_idRe_length {nm : Str} (h : idRe.MatchString nm = true) : 4 ≤ nm.length := by
  unfold Regexp.MatchString at h
  obtain ⟨r, hr⟩ := Option.isSome_iff_exists.1 h
  obtain ⟨h1, h2⟩ := find_sound hr
  obtain ⟨sfx, rfl, hne, -⟩ := (idRe_matches r).1 h1
  cases sfx with
  | nil => exact absurd rfl hne
  | cons c cs =>
    simp only [List.length_append, List.length_cons] at h2
    have : "id_".toList.length = 3 := rfl
    omega

/-- With a `db` sub-annotation of column name `nm`, `parseTag` reaches the
`gen` stage with the receiver `afterName nm`. -/
theorem NewField_of_db {tag nm : Str} (hne : tag ≠ [])
    (hdb : dbRe.FindString (tag.drop 1) = "db:\"".toList ++ nm ++ "\"".toList) :
    NewField tag =
      if (genRe.FindString (tag.drop 1)).length < 6 then some (afterName nm)
      else
        (slice (genRe.FindString (tag.drop 1)) 5
          (((genRe.FindString (tag.drop 1)).length : Int) - 1)).bind fun body =>
          optLoop { afterName nm with Typ := (Split body ',').headD [] } (Split body ',') := by
  have hlen : 1 ≤ tag.length := by
    cases tag with
    | nil => exact absurd rfl hne
    | cons x xs => simp
  have h1 : slice tag 1 tag.length = some (tag.drop 1) := slice_tail tag 1 hlen
  unfold NewField Field.parseTag
  rw [h1]
  simp only [Option.some_bind, hdb]
  rw [if_neg (by simp), slice_db]
  simp only [Option.some_bind]
  by_cases hid : idRe.MatchString nm = true
  · have h3 : slice nm 3 nm.length = some (nm.drop 3) :=
      slice_tail nm 3 (by have := MatchString_idRe_length hid; omega)
    simp only [hid, if_true, h3, Option.some_bind, afterName]
    split
    · rfl
    · congr 1
      funext body
      cases hs : Split body ',' with
      | nil => exact absurd hs (Split_ne_nil _ _)
      | cons t rest => simp
  · simp only [hid, Bool.false_eq_true, if_false, Option.some_bind, afterName]
    split
    · rfl
    · congr 1
      funext body
      cases hs : Split body ',' with
      | nil => exact absurd hs (Split_ne_nil _ _)
      | cons t rest => simp

/-- When `parseTag` returns, the annotation is not empty and holds a `db`
sub-annotation with a non-empty column name over `[a-z0-9\-_]`. -/
theorem NewField_db {tag : Str} {f : Field} (h : NewField tag = some f) :
    tag ≠ [] ∧ ∃ nm, dbRe.FindString (tag.drop 1) = "db:\"".toList ++ nm ++ "\"".toList ∧
      nm ≠ [] ∧ ∀ c ∈ nm, nameSet c = true := by
  unfold NewField Field.parseTag at h
  cases hs : slice tag 1 tag.length with
  | none => simp [hs] at h
  | some t =>
    obtain ⟨-, hle, -, ht⟩ := slice_eq_some hs
    have hne : tag ≠ [] := by
      rintro rfl
      simp at hle
    have ht1 : t = tag.drop 1 := by
      rw [ht]
      simp
    subst ht1
    refine ⟨hne, ?_⟩
    rw [hs] at h
    simp only [Option.some_bind] at h
    rcases FindString_cases dbRe (tag.drop 1) with ⟨-, h0⟩ | ⟨-, hm, -⟩
    · rw [h0] at h
      rw [if_neg (by simp)] at h
      simp [slice] at h
    · exact (dbRe_matches _).1 hm

/-- What a returning `parseTag` went through: the column name `nm` of the `db`
sub-annotation, then either no `gen` match, or the option loop over the pieces
of the `gen` body. -/
theorem NewField_stages {tag : Str} {f : Field} (h : NewField tag = some f) :
    tag ≠ [] ∧ ∃ nm, dbRe.FindString (tag.drop 1) = "db:\"".toList ++ nm ++ "\"".toList ∧
      nm ≠ [] ∧ (∀ c ∈ nm, nameSet c = true) ∧
      ((genRe.FindString (tag.drop 1) = [] ∧ f = afterName nm) ∨
        ∃ body, genRe.FindString (tag.drop 1) = "gen:\"".toList ++ body ++ "\"".toList ∧
          body ≠ [] ∧ (∀ c ∈ body, genSet c = true) ∧
          optLoop { afterName nm with Typ := (Split body ',').headD [] } (Split body ',') =
            some f) := by
  obtain ⟨hne, nm, hdb, hnm, hall⟩ := NewField_db h
  refine ⟨hne, nm, hdb, hnm, hall, ?_⟩
  rw [NewField_of_db hne hdb] at h
  rcases FindString_cases genRe (tag.drop 1) with ⟨-, h0⟩ | ⟨-, hm, -⟩
  · left
    rw [h0] at h
    simp only [List.length_nil, Nat.ofNat_pos, if_true, Option.some.injEq] at h
    exact ⟨h0, h.symm⟩
  · right
    obtain ⟨body, hb, hbne, hball⟩ := (genRe_matches _).1 hm
    refine ⟨body, hb, hbne, hball, ?_⟩
    rw [hb] at h
    rw [if_neg, slice_gen] at h
    · simpa using h
    · simp only [List.length_append, not_lt]
      have h5 : "gen:\"".toList.length = 5 := rfl
      have h6 : "\"".toList.length = 1 := rfl
      omega

theorem afterName_Name (nm : Str) : (afterName nm).Name = nm := by
  unfold afterName
  split <;> rfl

theorem afterName_Foreign (nm : Str) : (afterName nm).Foreign = idRe.MatchString nm := by
  unfold afterName
  split
  · rename_i h
    simp [h]
  · rename_i h
    simp at h
    simp [h]

theorem afterName_flags (nm : Str) :
    (afterName nm).Typ = [] ∧ (afterName nm).Default = [] ∧ (afterName nm).NotNull = false ∧
      (afterName nm).Uniqeu = false ∧ (afterName nm).AutoIncrement = false ∧
      (afterName nm).Primary = false ∧ (afterName nm).Index = false := by
  unfold afterName
  split <;> exact ⟨rfl, rfl, rfl, rfl, rfl, rfl, rfl⟩

/-- One turn of the option loop: the name, type and foreign-key fields are
kept, and a flag is set exactly by its keyword when the keyword is not the
type. -/
theorem optStep_inv {f g : Field} {opt : Str} (h : optStep f opt = some g) :
    g.Name = f.Name ∧ g.Typ = f.Typ ∧ g.Foreign = f.Foreign ∧ g.ForeignTable = f.ForeignTable ∧
    (g.AutoIncrement = true ↔
      f.AutoIncrement = true ∨ (opt = "autoincrement".toList ∧ opt ≠ f.Typ)) ∧
    (g.NotNull = true ↔ f.NotNull = true ∨ (opt = "notnull".toList ∧ opt ≠ f.Typ)) ∧
    (g.Primary = true ↔ f.Primary = true ∨ (opt = "primary".toList ∧ opt ≠ f.Typ)) ∧
    (g.Uniqeu = true ↔ f.Uniqeu = true ∨ (opt = "unique".toList ∧ opt ≠ f.Typ)) ∧
    (g.Index = true ↔ f.Index = true ∨ (opt = "index".toList ∧ opt ≠ f.Typ)) := by
  unfold optStep at h
  split_ifs at h with h0 h1 h2 h3 h4 h5
  · simp only [Option.some.injEq] at h
    subst h
    simp [h0]
  · simp only [Option.some.injEq] at h
    subst h
    subst h1
    simp_all
  · simp only [Option.some.injEq] at h
    subst h
    subst h2
    simp_all
  · simp only [Option.some.injEq] at h
    subst h
    subst h3
    simp_all
  · simp only [Option.some.injEq] at h
    subst h
    subst h4
    simp_all
  · simp only [Option.some.injEq] at h
    subst h
    subst h5
    simp_all
  · cases hs : slice (defaultRe.FindString opt) 8 (((defaultRe.FindString opt).length : Int) - 1) with
    | none => simp [hs] at h
    | some v =>
      simp only [hs, Option.some_bind, Option.some.injEq] at h
      subst h
      simp_all

theorem optLoop_inv {opts : List Str} {f g : Field} (h : optLoop f opts = some g) :
    g.Name = f.Name ∧ g.Typ = f.Typ ∧ g.Foreign = f.Foreign ∧ g.ForeignTable = f.ForeignTable ∧
    (g.AutoIncrement = true ↔
      f.AutoIncrement = true ∨ ("autoincrement".toList ∈ opts ∧ "autoincrement".toList ≠ f.Typ)) ∧
    (g.NotNull = true ↔ f.NotNull = true ∨ ("notnull".toList ∈ opts ∧ "notnull".toList ≠ f.Typ)) ∧
    (g.Primary = true ↔ f.Primary = true ∨ ("primary".toList ∈ opts ∧ "primary".toList ≠ f.Typ)) ∧
    (g.Uniqeu = true ↔ f.Uniqeu = true ∨ ("unique".toList ∈ opts ∧ "unique".toList ≠ f.Typ)) ∧
    (g.Index = true ↔ f.Index = true ∨ ("index".toList ∈ opts ∧ "index".toList ≠ f.Typ)) := by
  induction opts generalizing f with
  | nil =>
    simp only [optLoop, Option.some.injEq] at h
    subst h
    simp
  | cons opt rest ih =>
    rw [optLoop] at h
    cases hs : optStep f opt with
    | none => simp [hs] at h
    | some m =>
      rw [hs] at h
      simp only [Option.some_bind] at h
      obtain ⟨a1, a2, a3, a4, a5, a6, a7, a8, a9⟩ := optStep_inv hs
      obtain ⟨b1, b2, b3, b4, b5, b6, b7, b8, b9⟩ := ih h
      refine ⟨b1.trans a1, b2.trans a2, b3.trans a3, b4.trans a4, ?_, ?_, ?_, ?_, ?_⟩
      · rw [b5, a5, a2, List.mem_cons]
        constructor
        · rintro ((h | ⟨rfl, h⟩) | ⟨h, h'⟩)
          · exact Or.inl h
          · exact Or.inr ⟨Or.inl rfl, h⟩
          · exact Or.inr ⟨Or.inr h, h'⟩
        · rintro (h | ⟨h | h, h'⟩)
          · exact Or.inl (Or.inl h)
          · exact Or.inl (Or.inr ⟨h.symm, h ▸ h'⟩)
          · exact Or.inr ⟨h, h'⟩
      · rw [b6, a6, a2, List.mem_cons]
        constructor
        · rintro ((h | ⟨rfl, h⟩) | ⟨h, h'⟩)
          · exact Or.inl h
          · exact Or.inr ⟨Or.inl rfl, h⟩
          · exact Or.inr ⟨Or.inr h, h'⟩
        · rintro (h | ⟨h | h, h'⟩)
          · exact Or.inl (Or.inl h)
          · exact Or.inl (Or.inr ⟨h.symm, h ▸ h'⟩)
          · exact Or.inr ⟨h, h'⟩
      · rw [b7, a7, a2, List.mem_cons]
        constructor
        · rintro ((h | ⟨rfl, h⟩) | ⟨h, h'⟩)
          · exact Or.inl h
          · exact Or.inr ⟨Or.inl rfl, h⟩
          · exact Or.inr ⟨Or.inr h, h'⟩
        · rintro (h | ⟨h | h, h'⟩)
          · exact Or.inl (Or.inl h)
          · exact Or.inl (Or.inr ⟨h.symm, h ▸ h'⟩)
          · exact Or.inr ⟨h, h'⟩
      · rw [b8, a8, a2, List.mem_cons]
        constructor
        · rintro ((h | ⟨rfl, h⟩) | ⟨h, h'⟩)
          · exact Or.inl h
          · exact Or.inr ⟨Or.inl rfl, h⟩
          · exact Or.inr ⟨Or.inr h, h'⟩
        · rintro (h | ⟨h | h, h'⟩)
          · exact Or.inl (Or.inl h)
          · exact Or.inl (Or.inr ⟨h.symm, h ▸ h'⟩)
          · exact Or.inr ⟨h, h'⟩
      · rw [b9, a9, a2, List.mem_cons]
        constructor
        · rintro ((h | ⟨rfl, h⟩) | ⟨h, h'⟩)
          · exact Or.inl h
          · exact Or.inr ⟨Or.inl rfl, h⟩
          · exact Or.inr ⟨Or.inr h, h'⟩
        · rintro (h | ⟨h | h, h'⟩)
          · exact Or.inl (Or.inl h)
          · exact Or.inl (Or.inr ⟨h.symm, h ▸ h'⟩)
          · exact Or.inr ⟨h, h'⟩

/-- A returned field carries the column name of the `db` sub-annotation, and
its foreign-key fields are those set from that name. -/
theorem NewField_fields {tag nm : Str} {f : Field} (h : NewField tag = some f)
    (hdb : dbRe.FindString (tag.drop 1) = "db:\"".toList ++ nm ++ "\"".toList) :
    f.Name = nm ∧ f.Foreign = idRe.MatchString nm ∧
      f.ForeignTable = (afterName nm).ForeignTable := by
  obtain ⟨-, nm', hdb', -, -, hgen⟩ := NewField_stages h
  have hnm : nm' = nm := by
    rw [hdb] at hdb'
    simpa using hdb'.symm
  subst hnm
  rcases hgen with ⟨-, rfl⟩ | ⟨body, -, -, -, hloop⟩
  · exact ⟨afterName_Name _, afterName_Foreign _, rfl⟩
  · obtain ⟨a1, -, a3, a4, -⟩ := optLoop_inv hloop
    exact ⟨a1.trans (afterName_Name _), a3.trans (afterName_Foreign _), a4⟩

theorem NewField_sentinel_iff {tag : Str} {f : Field} (h : NewField tag = some f) :
    f.Name = "-".toList ↔ isSentinel tag = true := by
  obtain ⟨-, nm, hdb, -⟩ := NewField_stages h
  obtain ⟨hn, -⟩ := NewField_fields h hdb
  unfold isSentinel
  rw [hn, hdb]
  have e : "db:\"-\"".toList = "db:\"".toList ++ "-".toList ++ "\"".toList := rfl
  rw [e, decide_eq_true_eq]
  constructor
  · rintro rfl
    rfl
  · intro hq
    exact List.append_cancel_left (List.append_cancel_right hq)

/-! ## The builder -/

theorem buildLoop_skip (pre post : List (Option Str)) (s : Str) (f : Field)
    (hf : NewField s = some f) (hn : f.Name = "-".toList) (acc : List Field) :
    buildLoop acc (pre ++ some s :: post) = buildLoop acc (pre ++ post) := by
  induction pre generalizing acc with
  | nil => simp [buildLoop, hf, hn]
  | cons o pre ih =>
    cases o with
    | none => simpa [buildLoop] using ih acc
    | some t =>
      simp only [List.cons_append, buildLoop]
      cases ht : NewField t with
      | none => rfl
      | some g =>
        simp only [Option.some_bind]
        split
        · exact ih _
        · exact ih _

theorem buildLoop_count {srcs : List (Option Str)} {acc fs : List Field}
    (h : buildLoop acc srcs = some fs) :
    fs.length + sentinels srcs = acc.length + annotated srcs ∧
      ∀ g ∈ fs, g ∈ acc ∨ g.Name ≠ "-".toList := by
  induction srcs generalizing acc with
  | nil =>
    simp only [buildLoop, Option.some.injEq] at h
    subst h
    exact ⟨by simp [sentinels, annotated], fun g hg => Or.inl hg⟩
  | cons o rest ih =>
    cases o with
    | none =>
      rw [buildLoop] at h
      obtain ⟨h1, h2⟩ := ih h
      refine ⟨?_, h2⟩
      simpa [sentinels, annotated] using h1
    | some t =>
      rw [buildLoop] at h
      cases ht : NewField t with
      | none => simp [ht] at h
      | some g =>
        rw [ht] at h
        simp only [Option.some_bind] at h
        have hiff := NewField_sentinel_iff ht
        by_cases hg : g.Name = "-".toList
        · rw [if_neg (by simpa using hg)] at h
          obtain ⟨h1, h2⟩ := ih h
          refine ⟨?_, h2⟩
          have hs : isSentinel t = true := hiff.1 hg
          simp only [sentinels, annotated, List.countP_cons, hs, Option.isSome_some, if_true]
            at h1 ⊢
          omega
        · rw [if_pos hg] at h
          obtain ⟨h1, h2⟩ := ih h
          have hs : isSentinel t = false := by
            cases hv : isSentinel t with
            | false => rfl
            | true => exact absurd (hiff.2 hv) hg
          constructor
          · simp only [sentinels, annotated, List.countP_cons, hs, Option.isSome_some, if_true,
              List.length_append, List.length_singleton] at h1 ⊢
            simp only [Bool.false_eq_true, if_false] at h1 ⊢
            omega
          · intro x hx
            rcases h2 x hx with hm | hm
            · rcases List.mem_append.1 hm with hm | hm
              · exact Or.inl hm
              · simp only [List.mem_singleton] at hm
                subst hm
                exact Or.inr hg
            · exact Or.inr hm

set_option maxHeartbeats 1600000 in
theorem genereateSQL_eq (f : Field) :
    f.genereateSQL =
      (f.Name ++ " ".toList ++ f.Typ ++
        (if f.AutoIncrement = true then " AUTO_INCREMENT".toList else []) ++
        (if f.NotNull = true then " NOT NULL".toList else []) ++
        (if f.Default ≠ [] then " DEFAULT ".toList ++ f.Default else []) ++
        (if f.Uniqeu = true then " UNIQUE".toList else []) ++
        (if f.Primary = true then ",\n".toList ++ "PRIMARY KEY(".toList ++ f.Name ++ ")".toList
          else []) ++
        (if f.Foreign = true then
          ",\n".toList ++ "CONSTRAINT FOREIGN KEY (".toList ++ f.Name ++ ") REFERENCES ".toList ++
            f.ForeignTable ++ "(id)".toList
          else [])) ++
      (if f.Index = true then ",\n".toList ++ "INDEX(".toList ++ f.Name ++ "_col)".toList
        else []) := by
  unfold Field.genereateSQL
  split_ifs <;> simp only [List.append_assoc, List.append_nil]

/-! ## The option loop on keywords and `default(...)` -/

theorem splitGo_chars (sep : Char) (s cur : Str) :
    ∀ t ∈ splitGo sep cur s, ∀ c ∈ t, c ∈ cur ∨ c ∈ s := by
  induction s generalizing cur with
  | nil =>
    intro t ht c hc
    simp only [splitGo, List.mem_singleton] at ht
    subst ht
    exact Or.inl hc
  | cons x xs ih =>
    intro t ht c hc
    rw [splitGo] at ht
    split at ht
    · rcases List.mem_cons.1 ht with rfl | ht
      · exact Or.inl hc
      · rcases ih [] t ht c hc with h | h
        · simp at h
        · exact Or.inr (List.mem_cons_of_mem _ h)
    · rcases ih _ t ht c hc with h | h
      · rcases List.mem_append.1 h with h | h
        · exact Or.inl h
        · simp only [List.mem_singleton] at h
          subst h
          exact Or.inr (List.mem_cons_self _ _)
      · exact Or.inr (List.mem_cons_of_mem _ h)

theorem Split_chars {s : Str} {sep : Char} {t : Str} (ht : t ∈ Split s sep) :
    ∀ c ∈ t, c ∈ s := by
  intro c hc
  rcases splitGo_chars sep s [] t ht c hc with h | h
  · simp at h
  · exact h

theorem genSet_dotSet {c : Char} (h : genSet c = true) : dotSet c = true := by
  unfold dotSet
  simp only [Bool.not_eq_true', decide_eq_false_iff_not]
  rintro rfl
  revert h
  decide

theorem optLoop_append (f : Field) (a b : List Str) :
    optLoop f (a ++ b) = (optLoop f a).bind fun g => optLoop g b := by
  induction a generalizing f with
  | nil => simp [optLoop]
  | cons x xs ih =>
    simp only [List.cons_append, optLoop]
    cases optStep f x with
    | none => rfl
    | some g => simp [ih]

theorem optStep_keyword {f : Field} {t : Str} (ht : t ∈ keywords ∨ t = f.Typ) :
    ∃ g, optStep f t = some g ∧ g.Typ = f.Typ ∧ g.Default = f.Default := by
  unfold optStep
  split_ifs with h0 h1 h2 h3 h4 h5
  all_goals first
    | exact ⟨_, rfl, rfl, rfl⟩
    | (exfalso
       rcases ht with ht | ht
       · simp only [keywords, List.mem_cons, List.mem_singleton, List.not_mem_nil, or_false] at ht
         tauto
       · exact h0 ht)

theorem optLoop_keywords (ts : List Str) (f : Field) (h : ∀ t ∈ ts, t ∈ keywords ∨ t = f.Typ) :
    ∃ g, optLoop f ts = some g ∧ g.Typ = f.Typ ∧ g.Default = f.Default := by
  induction ts generalizing f with
  | nil => exact ⟨f, rfl, rfl, rfl⟩
  | cons t ts ih =>
    obtain ⟨g, hg, h1, h2⟩ := optStep_keyword (h t (List.mem_cons_self _ _))
    obtain ⟨g', hg', h1', h2'⟩ :=
      ih g fun u hu => by rw [h1]; exact h u (List.mem_cons_of_mem _ hu)
    exact ⟨g', by simp [optLoop, hg, hg'], h1'.trans h1, h2'.trans h2⟩

theorem optStep_default {f : Field} {e : Str} (he : e ≠ []) (hdot : ∀ c ∈ e, dotSet c = true)
    (hd : "default(".toList ++ e ++ ")".toList ≠ f.Typ) :
    ∃ g, optStep f ("default(".toList ++ e ++ ")".toList) = some g ∧ g.Typ = f.Typ ∧
      g.Default = e := by
  have hw : matchesWhole defaultRe ("default(".toList ++ e ++ ")".toList) = true :=
    (defaultRe_matches _).2 ⟨e, rfl, he, hdot⟩
  unfold optStep
  rw [if_neg hd, if_neg (by simp), if_neg (by simp), if_neg (by simp), if_neg (by simp),
    if_neg (by simp)]
  simp only [FindString_of_whole hw, slice_default, Option.some_bind]
  exact ⟨_, rfl, rfl, rfl⟩

theorem default_infix (f : Field) (h : f.Default ≠ []) :
    (" DEFAULT ".toList ++ f.Default) <:+: f.genereateSQL := by
  rw [genereateSQL_eq, if_pos h]
  refine ⟨f.Name ++ " ".toList ++ f.Typ ++
        (if f.AutoIncrement = true then " AUTO_INCREMENT".toList else []) ++
        (if f.NotNull = true then " NOT NULL".toList else []),
      (if f.Uniqeu = true then " UNIQUE".toList else []) ++
        (if f.Primary = true then ",\n".toList ++ "PRIMARY KEY(".toList ++ f.Name ++ ")".toList
          else []) ++
        (if f.Foreign = true then
          ",\n".toList ++ "CONSTRAINT FOREIGN KEY (".toList ++ f.Name ++ ") REFERENCES ".toList ++
            f.ForeignTable ++ "(id)".toList
          else []) ++
      (if f.Index = true then ",\n".toList ++ "INDEX(".toList ++ f.Name ++ "_col)".toList
        else []), ?_⟩
  simp only [List.append_assoc]


/-! ## The sentinel and the foreign-key inference -/

/-- C1: an annotation whose `db` value is the sentinel `-`, and that parses,
can be inserted anywhere among the source fields without changing the built
table: the builder drops that one field.  The table has as many fields as
there are annotated source fields minus the sentinel ones, no field of the
table is named `-`, and the DDL and the four query constants are those of the
sources without the sentinel annotation. -/
theorem sentinel_field_dropped (tableName T : Str) (pre post : List (Option Str)) (s : Str)
    (f : Field) (hs : dbRe.FindString (s.drop 1) = "db:\"-\"".toList)
    (hf : NewField s = some f) :
    build tableName (pre ++ some s :: post) = build tableName (pre ++ post) ∧
    (∀ t, build tableName (pre ++ some s :: post) = some t →
      t.Fields.length + sentinels (pre ++ some s :: post) = annotated (pre ++ some s :: post) ∧
      ∀ g ∈ t.Fields, g.Name ≠ "-".toList) ∧
    (build tableName (pre ++ some s :: post)).map Table.genereateSQL =
      (build tableName (pre ++ post)).map Table.genereateSQL ∧
    (build tableName (pre ++ some s :: post)).map (Table.genereateCountConst T) =
      (build tableName (pre ++ post)).map (Table.genereateCountConst T) ∧
    (build tableName (pre ++ some s :: post)).map (Table.genereateSelectConst T) =
      (build tableName (pre ++ post)).map (Table.genereateSelectConst T) ∧
    (build tableName (pre ++ some s :: post)).map (Table.genereateUpdateConst T) =
      (build tableName (pre ++ post)).map (Table.genereateUpdateConst T) ∧
    (build tableName (pre ++ some s :: post)).map (Table.genereateInsertConst T) =
      (build tableName (pre ++ post)).map (Table.genereateInsertConst T) := by
  have hname : f.Name = "-".toList :=
    (NewField_sentinel_iff hf).2 (by simpa [isSentinel] using hs)
  have hb : build tableName (pre ++ some s :: post) = build tableName (pre ++ post) := by
    unfold build
    rw [buildLoop_skip pre post s f hf hname]
  refine ⟨hb, ?_, by rw [hb], by rw [hb], by rw [hb], by rw [hb], by rw [hb]⟩
  intro t ht
  unfold build at ht
  cases hl : buildLoop [] (pre ++ some s :: post) with
  | none => simp [hl] at ht
  | some fs =>
    rw [hl] at ht
    simp only [Option.map_some', Option.some.injEq] at ht
    subst ht
    obtain ⟨h1, h2⟩ := buildLoop_count hl
    refine ⟨by simpa using h1, ?_⟩
    intro g hg
    rcases h2 g hg with hm | hm
    · simp at hm
    · exact hm

/-- Witness of C1: a sentinel annotation inserted after the first two fields
of the example struct `User`. -/
theorem sentinel_field_dropped_witness :
    build "user".toList
        (userTags.take 2 ++ some "`db:\"-\",gen:\"bigint,notnull\"`".toList :: userTags.drop 2) =
      build "user".toList (userTags.take 2 ++ userTags.drop 2) :=
  (sentinel_field_dropped "user".toList "User".toList (userTags.take 2) (userTags.drop 2)
    "`db:\"-\",gen:\"bigint,notnull\"`".toList
    { Name := "-".toList, Typ := "bigint".toList, NotNull := true } (by decide) (by decide)).1

/-- C2: when the column name of the `db` sub-annotation is `id_<suffix>`, the
suffix a non-empty run of lowercase letters and digits, a returned field has
`Foreign = true` and `ForeignTable = <suffix>`, whatever the rest of the
annotation (its `gen` options included) is. -/
theorem foreign_key_inferred (tag sfx : Str) (f : Field) (hne : sfx ≠ [])
    (hall : ∀ c ∈ sfx, lowerDigit c = true)
    (hdb : dbRe.FindString (tag.drop 1) = "db:\"".toList ++ ("id_".toList ++ sfx) ++ "\"".toList)
    (hf : NewField tag = some f) :
    f.Name = "id_".toList ++ sfx ∧ f.Foreign = true ∧ f.ForeignTable = sfx := by
  obtain ⟨h1, h2, h3⟩ := NewField_fields hf hdb
  have hm : idRe.MatchString ("id_".toList ++ sfx) = true := by
    unfold Regexp.MatchString
    rw [find_of_whole ((idRe_matches _).2 ⟨sfx, rfl, hne, hall⟩)]
    rfl
  refine ⟨h1, h2.trans hm, ?_⟩
  rw [h3, afterName, if_pos hm]
  rfl

/-- Witness of C2: the column `id_user`. -/
theorem foreign_key_inferred_witness :
    NewField "`db:\"id_user\",gen:\"bigint,notnull\"`".toList = some refField ∧
      (refField.Name = "id_".toList ++ "user".toList ∧ refField.Foreign = true ∧
        refField.ForeignTable = "user".toList) :=
  ⟨by decide,
    foreign_key_inferred "`db:\"id_user\",gen:\"bigint,notnull\"`".toList "user".toList refField
      (by decide) (by decide) (by decide) (by decide)⟩

/-! ## The query constants and the DDL -/

/-- C3: the select query constant is `select<T> = ` and the back-quoted
statement `SELECT c1, ..., cn FROM <table> /*condition*/`, the `ci` being the
names of the fields, one per field and in field order. -/
theorem select_const_shape (T : Str) (t : Table) :
    t.genereateSelectConst T =
      "select".toList ++ T ++ " = ".toList ++
        ("`".toList ++ "SELECT ".toList ++
          List.intercalate ", ".toList (t.Fields.map fun f => f.Name) ++
          " FROM ".toList ++ t.Name ++ " /*condition*/".toList ++ "`".toList) ∧
    (t.Fields.map fun f => f.Name).length = t.Fields.length ∧
    ∀ i (h : i < t.Fields.length), (t.Fields.map fun f => f.Name)[i]? = some (t.Fields[i]).Name := by
  refine ⟨?_, by simp, ?_⟩
  · simp [Table.genereateSelectConst, collect_eq_map, Join_eq_intercalate]
  · intro i h
    simp [h]

/-- C4: the insert query constant lists the names of all the fields in field
order (whatever their flags, an auto-increment primary field included), then
a `VALUES` list of the same length whose i-th entry is `:` and the i-th
column name. -/
theorem insert_const_shape (T : Str) (t : Table) :
    ∃ cols vals : List Str,
      t.genereateInsertConst T =
        "insert".toList ++ T ++ " = `INSERT INTO ".toList ++ t.Name ++ " (".toList ++
          List.intercalate ", ".toList cols ++ " ) VALUES (".toList ++
          List.intercalate ", ".toList vals ++ " )`".toList ∧
      cols = t.Fields.map (fun f => f.Name) ∧
      vals.length = cols.length ∧
      ∀ i (h : i < cols.length), vals[i]? = some (":".toList ++ cols[i]) := by
  refine ⟨t.Fields.map (fun f => f.Name), t.Fields.map (fun f => ":".toList ++ f.Name),
    ?_, rfl, by simp, ?_⟩
  · simp [Table.genereateInsertConst, collect_eq_map, Join_eq_intercalate]
  · intro i h
    simp at h
    simp [h]

/-- C5: with exactly one field flagged primary, `p`, the update query
constant is `update<T> = ` and the back-quoted statement
`UPDATE <table> SET <assignments> WHERE p=:p`, the assignments being
`c=:c` over exactly the fields not flagged primary, in field order. -/
theorem update_const_shape (T : Str) (t : Table) (p : Field)
    (hp : t.Fields.filter (fun f => f.Primary) = [p]) :
    t.genereateUpdateConst T =
      "update".toList ++ T ++ " = ".toList ++
        ("`".toList ++ "UPDATE ".toList ++ t.Name ++ " SET ".toList ++
          List.intercalate ", ".toList
            ((t.Fields.filter fun f => !f.Primary).map fun f =>
              f.Name ++ "=:".toList ++ f.Name) ++
          " WHERE ".toList ++ (p.Name ++ "=:".toList ++ p.Name) ++ "`".toList) := by
  simp [Table.genereateUpdateConst, updateLoop_eq, hp, Join_eq_intercalate]

/-- Witness of C5: the table of the example struct `User`, whose primary
field is `id`. -/
theorem update_const_shape_witness :
    userTable.Fields.filter (fun f => f.Primary) = [userID] ∧
      userTable.genereateUpdateConst "User".toList =
        ("updateUser = `UPDATE user SET name=:name, dt_created=:dt_created, " ++
          "dt_last_login=:dt_last_login, login=:login, pwd_hash=:pwd_hash WHERE id=:id`").toList :=
  ⟨by decide, (update_const_shape "User".toList userTable userID (by decide)).trans (by decide)⟩

/-- C6: the clause of a field is `<name> <type>`, then ` AUTO_INCREMENT` iff
`AutoIncrement`, ` NOT NULL` iff `NotNull`, ` DEFAULT <default>` iff `Default`
is not empty, ` UNIQUE` iff `Uniqeu`; after it, each behind a comma and a
newline, `PRIMARY KEY(<name>)` iff `Primary`, then
`CONSTRAINT FOREIGN KEY (<name>) REFERENCES <foreignTable>(id)` iff `Foreign`.
The only other flag, `Index`, leaves all of that as it is: what it adds comes
after, and is empty when `Index` is false. -/
theorem field_sql_shape (f : Field) :
    f.genereateSQL =
      (f.Name ++ " ".toList ++ f.Typ ++
        (if f.AutoIncrement = true then " AUTO_INCREMENT".toList else []) ++
        (if f.NotNull = true then " NOT NULL".toList else []) ++
        (if f.Default ≠ [] then " DEFAULT ".toList ++ f.Default else []) ++
        (if f.Uniqeu = true then " UNIQUE".toList else []) ++
        (if f.Primary = true then ",\n".toList ++ "PRIMARY KEY(".toList ++ f.Name ++ ")".toList
          else []) ++
        (if f.Foreign = true then
          ",\n".toList ++ "CONSTRAINT FOREIGN KEY (".toList ++ f.Name ++ ") REFERENCES ".toList ++
            f.ForeignTable ++ "(id)".toList
          else [])) ++
      (if f.Index = true then ",\n".toList ++ "INDEX(".toList ++ f.Name ++ "_col)".toList
        else []) :=
  genereateSQL_eq f

/-- C7: the DDL of a table is `CREATE TABLE <table name>`, then ` {` and a
newline, then the clauses of the fields, one per field and in field order,
each behind a tab and joined by a comma and a newline, then a newline and the
closing `}`. -/
theorem table_sql_shape (t : Table) :
    t.genereateSQL =
      "CREATE TABLE ".toList ++ t.Name ++ " ".toList ++
        ("\x7b".toList ++ "\n".toList ++
          List.intercalate ",\n".toList (t.Fields.map fun f => "\t".toList ++ f.genereateSQL) ++
          "\n".toList ++ "\x7d".toList) ∧
    (t.Fields.map fun f => "\t".toList ++ f.genereateSQL).length = t.Fields.length ∧
    ∀ i (h : i < t.Fields.length),
      (t.Fields.map fun f => "\t".toList ++ f.genereateSQL)[i]? =
        some ("\t".toList ++ (t.Fields[i]).genereateSQL) := by
  refine ⟨?_, by simp, ?_⟩
  · simp [Table.genereateSQL, collect_eq_map, Join_eq_intercalate]
  · intro i h
    simp [h]

/-! ## The `gen` options -/

/-- On a returned field, when `parseTag` finds a `gen` sub-annotation the type
is the first comma-separated piece of its body; when it finds none, the type
stays empty. -/
theorem type_of_gen (tag : Str) (f : Field) (hf : NewField tag = some f) :
    (∀ body t0 rest, genRe.FindString (tag.drop 1) = "gen:\"".toList ++ body ++ "\"".toList →
      Split body ',' = t0 :: rest → f.Typ = t0) ∧
    (genRe.FindString (tag.drop 1) = [] → f.Typ = []) := by
  obtain ⟨-, nm, -, -, -, hgen⟩ := NewField_stages hf
  constructor
  · intro body t0 rest hb ht
    rcases hgen with ⟨h0, -⟩ | ⟨body', hb', -, -, hloop⟩
    · rw [h0] at hb
      simp at hb
    · have e : body' = body := by
        rw [hb] at hb'
        exact (List.append_cancel_left (List.append_cancel_right hb')).symm
      subst e
      obtain ⟨-, a2, -⟩ := optLoop_inv hloop
      rw [a2, ht]
      rfl
  · intro h0
    rcases hgen with ⟨-, rfl⟩ | ⟨body', hb', -, -, -⟩
    · exact (afterName_flags nm).1
    · rw [h0] at hb'
      simp at hb'

/-- On a returned field with `gen` tokens `t0, rest`, each of the five flags
is true iff its keyword occurs in `rest` and is different from `t0`. -/
theorem flags_of_gen (tag body t0 : Str) (rest : List Str) (f : Field)
    (hgen : genRe.FindString (tag.drop 1) = "gen:\"".toList ++ body ++ "\"".toList)
    (ht : Split body ',' = t0 :: rest) (hf : NewField tag = some f) :
    (f.AutoIncrement = true ↔ "autoincrement".toList ∈ rest ∧ "autoincrement".toList ≠ t0) ∧
    (f.NotNull = true ↔ "notnull".toList ∈ rest ∧ "notnull".toList ≠ t0) ∧
    (f.Primary = true ↔ "primary".toList ∈ rest ∧ "primary".toList ≠ t0) ∧
    (f.Uniqeu = true ↔ "unique".toList ∈ rest ∧ "unique".toList ≠ t0) ∧
    (f.Index = true ↔ "index".toList ∈ rest ∧ "index".toList ≠ t0) := by
  obtain ⟨-, nm, -, -, -, hstage⟩ := NewField_stages hf
  rcases hstage with ⟨h0, -⟩ | ⟨body', hb', -, -, hloop⟩
  · rw [h0] at hgen
    simp at hgen
  · have e : body' = body := by
      rw [hgen] at hb'
      exact (List.append_cancel_left (List.append_cancel_right hb')).symm
    subst e
    rw [ht] at hloop
    obtain ⟨-, -, -, -, a5, a6, a7, a8, a9⟩ := optLoop_inv hloop
    obtain ⟨-, -, c3, c4, c5, c6, c7⟩ := afterName_flags nm
    simp only [List.headD_cons, c3, c4, c5, c6, c7, Bool.false_eq_true, false_or,
      List.mem_cons] at a5 a6 a7 a8 a9
    refine ⟨?_, ?_, ?_, ?_, ?_⟩
    · rw [a5]; constructor
      · rintro ⟨h | h, h'⟩
        · exact absurd h h'
        · exact ⟨h, h'⟩
      · rintro ⟨h, h'⟩
        exact ⟨Or.inr h, h'⟩
    · rw [a6]; constructor
      · rintro ⟨h | h, h'⟩
        · exact absurd h h'
        · exact ⟨h, h'⟩
      · rintro ⟨h, h'⟩
        exact ⟨Or.inr h, h'⟩
    · rw [a7]; constructor
      · rintro ⟨h | h, h'⟩
        · exact absurd h h'
        · exact ⟨h, h'⟩
      · rintro ⟨h, h'⟩
        exact ⟨Or.inr h, h'⟩
    · rw [a8]; constructor
      · rintro ⟨h | h, h'⟩
        · exact absurd h h'
        · exact ⟨h, h'⟩
      · rintro ⟨h, h'⟩
        exact ⟨Or.inr h, h'⟩
    · rw [a9]; constructor
      · rintro ⟨h | h, h'⟩
        · exact absurd h h'
        · exact ⟨h, h'⟩
      · rintro ⟨h, h'⟩
        exact ⟨Or.inr h, h'⟩

/-- C10 fails as stated: in `db:"a",gen:"default(0),default(0)"` the tokens
after the first are the single token `default(0)`, yet the returned field has
no default and its clause holds no ` DEFAULT 0`: the option loop skips the
token, which equals the type. -/
theorem default_counterexample :
    genRe.FindString ("`db:\"a\",gen:\"default(0),default(0)\"`".toList.drop 1) =
        "gen:\"".toList ++ "default(0),default(0)".toList ++ "\"".toList ∧
      Split "default(0),default(0)".toList ',' = ["default(0)".toList, "default(0)".toList] ∧
      NewField "`db:\"a\",gen:\"default(0),default(0)\"`".toList =
        some { Name := "a".toList, Typ := "default(0)".toList } ∧
      ({ Name := "a".toList, Typ := "default(0)".toList } : Field).Default ≠ "0".toList ∧
      ¬(" DEFAULT 0".toList <:+:
        ({ Name := "a".toList, Typ := "default(0)".toList } : Field).genereateSQL) := by
  refine ⟨by decide, by decide, by decide, by decide, by decide⟩

/-- C10, amended: when `parseTag` finds a `db` and a `gen` sub-annotation, the
`gen` tokens after the first are keywords and one token `default(<expr>)`
with a non-empty `<expr>`, and that token is different from the first token,
then `parseTag` returns a field whose default is exactly `<expr>` and whose
clause contains ` DEFAULT <expr>`. -/
theorem default_parsed (tag nm body t0 e : Str) (r1 r2 : List Str) (hne : tag ≠ [])
    (hdb : dbRe.FindString (tag.drop 1) = "db:\"".toList ++ nm ++ "\"".toList)
    (hgen : genRe.FindString (tag.drop 1) = "gen:\"".toList ++ body ++ "\"".toList)
    (ht : Split body ',' = t0 :: (r1 ++ ("default(".toList ++ e ++ ")".toList) :: r2))
    (hk : ∀ t ∈ r1 ++ r2, t ∈ keywords) (he : e ≠ [])
    (hd : "default(".toList ++ e ++ ")".toList ≠ t0) :
    ∃ f, NewField tag = some f ∧ f.Default = e ∧
      (" DEFAULT ".toList ++ e) <:+: f.genereateSQL := by
  -- the characters of the body are in the set of the `gen` pattern
  have hbody : ∀ c ∈ body, genSet c = true := by
    rcases FindString_cases genRe (tag.drop 1) with ⟨-, h0⟩ | ⟨-, hm, -⟩
    · rw [h0] at hgen
      simp at hgen
    · obtain ⟨body', hb', -, hall⟩ := (genRe_matches _).1 hm
      have e' : body' = body := by
        rw [hgen] at hb'
        exact (List.append_cancel_left (List.append_cancel_right hb')).symm
      exact e' ▸ hall
  have hdot : ∀ c ∈ e, dotSet c = true := by
    intro c hc
    apply genSet_dotSet
    apply hbody
    have hmem : "default(".toList ++ e ++ ")".toList ∈ Split body ',' := by
      rw [ht]
      simp
    exact Split_chars hmem c (by simp [hc])
  rw [NewField_of_db hne hdb, hgen, if_neg, slice_gen]
  · simp only [Option.some_bind, ht, List.headD_cons, optLoop]
    set f1 : Field := { afterName nm with Typ := t0 } with hf1
    have hs0 : optStep f1 t0 = some f1 := by
      unfold optStep
      rw [if_pos rfl]
    rw [hs0]
    simp only [Option.some_bind, optLoop_append]
    obtain ⟨g1, hg1, hty1, -⟩ :=
      optLoop_keywords r1 f1 fun t h => Or.inl (hk t (List.mem_append_left _ h))
    rw [hg1]
    simp only [Option.some_bind, optLoop]
    obtain ⟨g2, hg2, hty2, hdef2⟩ :=
      @optStep_default g1 e he hdot (by rw [hty1]; exact hd)
    rw [hg2]
    simp only [Option.some_bind]
    obtain ⟨g3, hg3, -, hdef3⟩ :=
      optLoop_keywords r2 g2 fun t h => Or.inl (hk t (List.mem_append_right _ h))
    refine ⟨g3, hg3, hdef3.trans hdef2, ?_⟩
    have hD : g3.Default = e := hdef3.trans hdef2
    have := default_infix g3 (by rw [hD]; exact he)
    rwa [hD] at this
  · simp only [List.length_append, not_lt]
    have h5 : "gen:\"".toList.length = 5 := rfl
    have h6 : "\"".toList.length = 1 := rfl
    have : 0 < body.length := by
      cases body with
      | nil => simp [Split, splitGo] at ht
      | cons c cs => simp
    omega

/-- Witness of C10: `default(0)` gives the default `0`. -/
theorem default_parsed_witness :
    ∃ f, NewField "`db:\"n\",gen:\"int,notnull,default(0)\"`".toList = some f ∧
      f.Default = "0".toList ∧ (" DEFAULT ".toList ++ "0".toList) <:+: f.genereateSQL :=
  default_parsed "`db:\"n\",gen:\"int,notnull,default(0)\"`".toList "n".toList
    "int,notnull,default(0)".toList "int".toList "0".toList ["notnull".toList] []
    (by decide) (by decide) (by decide) (by decide) (by decide) (by decide) (by decide)

/-! ## Matches as infixes -/

theorem find_infix {re : Regexp} {s r : Str} (h : re.find s = some r) :
    ∃ a b, s = a ++ r ++ b := by
  induction s with
  | nil =>
    simp only [Regexp.find, Option.map_eq_some'] at h
    obtain ⟨n, -, rfl⟩ := h
    exact ⟨[], [], by simp⟩
  | cons x xs ih =>
    rw [Regexp.find] at h
    cases hl : longestPrefix re (x :: xs) with
    | none =>
      rw [hl] at h
      obtain ⟨a, b, hab⟩ := ih h
      exact ⟨x :: a, b, by rw [hab]; simp⟩
    | some n =>
      rw [hl] at h
      simp only [Option.some.injEq] at h
      subst h
      exact ⟨[], (x :: xs).drop n, by simp⟩

theorem find_isSome_of_infix {re : Regexp} {a r b : Str} (h : matchesWhole re r = true) :
    (re.find (a ++ r ++ b)).isSome = true := by
  have hp : ∀ s : Str, longestPrefix re (r ++ s) ≠ none := by
    intro s hn
    have := longestPrefix_none hn r.length (by simp)
    simp [h] at this
  induction a with
  | nil =>
    cases hs : ([] ++ r ++ b) with
    | nil =>
      simp only [List.nil_append, List.append_eq_nil] at hs
      obtain ⟨rfl, rfl⟩ := hs
      have := hp []
      simp only [List.append_nil] at this
      cases hl : longestPrefix re [] with
      | none => exact absurd hl this
      | some n => simp [Regexp.find, hl]
    | cons x xs =>
      have := hp b
      simp only [List.nil_append] at hs
      rw [hs] at this
      cases hl : longestPrefix re (x :: xs) with
      | none => exact absurd hl this
      | some n => simp [Regexp.find, hl]
  | cons x a ih =>
    simp only [List.cons_append, Regexp.find]
    cases hl : longestPrefix re (x :: (a ++ r ++ b)) with
    | none => simpa using ih
    | some n => simp

theorem find_isSome_iff (re : Regexp) (s : Str) :
    (re.find s).isSome = true ↔ ∃ a r b, s = a ++ r ++ b ∧ matchesWhole re r = true := by
  constructor
  · intro h
    obtain ⟨r, hr⟩ := Option.isSome_iff_exists.1 h
    obtain ⟨a, b, hab⟩ := find_infix hr
    exact ⟨a, r, b, hab, (find_sound hr).1⟩
  · rintro ⟨a, r, b, rfl, h⟩
    exact find_isSome_of_infix h

theorem find_none_iff (re : Regexp) (s : Str) :
    re.find s = none ↔ ¬∃ a r b, s = a ++ r ++ b ∧ matchesWhole re r = true := by
  rw [← find_isSome_iff]
  cases re.find s <;> simp

/-- The text contains a `db` sub-annotation. -/
theorem dbRe_find_iff (s : Str) :
    (dbRe.find s).isSome = true ↔
      ∃ a nm b, s = a ++ ("db:\"".toList ++ nm ++ "\"".toList) ++ b ∧ nm ≠ [] ∧
        ∀ c ∈ nm, nameSet c = true := by
  rw [find_isSome_iff]
  constructor
  · rintro ⟨a, r, b, rfl, h⟩
    obtain ⟨nm, rfl, h1, h2⟩ := (dbRe_matches r).1 h
    exact ⟨a, nm, b, rfl, h1, h2⟩
  · rintro ⟨a, nm, b, rfl, h1, h2⟩
    exact ⟨a, _, b, rfl, (dbRe_matches _).2 ⟨nm, rfl, h1, h2⟩⟩

theorem genRe_find_iff (s : Str) :
    (genRe.find s).isSome = true ↔
      ∃ a body b, s = a ++ ("gen:\"".toList ++ body ++ "\"".toList) ++ b ∧ body ≠ [] ∧
        ∀ c ∈ body, genSet c = true := by
  rw [find_isSome_iff]
  constructor
  · rintro ⟨a, r, b, rfl, h⟩
    obtain ⟨nm, rfl, h1, h2⟩ := (genRe_matches r).1 h
    exact ⟨a, nm, b, rfl, h1, h2⟩
  · rintro ⟨a, nm, b, rfl, h1, h2⟩
    exact ⟨a, _, b, rfl, (genRe_matches _).2 ⟨nm, rfl, h1, h2⟩⟩

theorem defaultRe_find_iff (s : Str) :
    (defaultRe.find s).isSome = true ↔
      ∃ a e b, s = a ++ ("default(".toList ++ e ++ ")".toList) ++ b ∧ e ≠ [] ∧
        ∀ c ∈ e, dotSet c = true := by
  rw [find_isSome_iff]
  constructor
  · rintro ⟨a, r, b, rfl, h⟩
    obtain ⟨nm, rfl, h1, h2⟩ := (defaultRe_matches r).1 h
    exact ⟨a, nm, b, rfl, h1, h2⟩
  · rintro ⟨a, nm, b, rfl, h1, h2⟩
    exact ⟨a, _, b, rfl, (defaultRe_matches _).2 ⟨nm, rfl, h1, h2⟩⟩

theorem idRe_find_iff (s : Str) :
    idRe.MatchString s = true ↔
      ∃ a sfx b, s = a ++ ("id_".toList ++ sfx) ++ b ∧ sfx ≠ [] ∧
        ∀ c ∈ sfx, lowerDigit c = true := by
  unfold Regexp.MatchString
  rw [find_isSome_iff]
  constructor
  · rintro ⟨a, r, b, rfl, h⟩
    obtain ⟨nm, rfl, h1, h2⟩ := (idRe_matches r).1 h
    exact ⟨a, nm, b, rfl, h1, h2⟩
  · rintro ⟨a, nm, b, rfl, h1, h2⟩
    exact ⟨a, _, b, rfl, (idRe_matches _).2 ⟨nm, rfl, h1, h2⟩⟩

/-- What `FindString` returns is empty exactly when there is no match. -/
theorem FindString_eq_nil_iff {re : Regexp} (hre : matchesWhole re [] = false) (s : Str) :
    re.FindString s = [] ↔ re.find s = none := by
  rcases FindString_cases re s with ⟨h1, h2⟩ | ⟨h1, h2, -⟩
  · simp [h1, h2]
  · constructor
    · intro h0
      rw [h0, hre] at h2
      simp at h2
    · intro hn
      rw [hn] at h1
      simp at h1

/-! ## When the option loop returns -/

theorem optStep_isSome_iff (f : Field) (t : Str) :
    (optStep f t).isSome = true ↔
      t = f.Typ ∨ t ∈ keywords ∨ (defaultRe.find t).isSome = true := by
  unfold optStep
  split_ifs with h0 h1 h2 h3 h4 h5
  · simp [h0]
  · simp [h1, keywords]
  · simp [h2, keywords]
  · simp [h3, keywords]
  · simp [h4, keywords]
  · simp [h5, keywords]
  · have hk : t ∉ keywords := by
      simp only [keywords, List.mem_cons, List.mem_singleton, List.not_mem_nil, or_false]
      tauto
    simp only [h0, hk, false_or]
    rcases FindString_cases defaultRe t with ⟨h1', h2'⟩ | ⟨h1', h2', -⟩
    · rw [h1', h2']
      simp [slice]
    · rw [h1']
      obtain ⟨e, he, -, -⟩ := (defaultRe_matches _).1 h2'
      rw [he, slice_default]
      simp

theorem optLoop_isSome_iff (ts : List Str) (f : Field) :
    (optLoop f ts).isSome = true ↔
      ∀ t ∈ ts, t = f.Typ ∨ t ∈ keywords ∨ (defaultRe.find t).isSome = true := by
  induction ts generalizing f with
  | nil => simp [optLoop]
  | cons t ts ih =>
    rw [optLoop]
    cases hs : optStep f t with
    | none =>
      have := (optStep_isSome_iff f t).not.1 (by simp [hs])
      simp only [Option.none_bind, Option.isSome_none, Bool.false_eq_true, false_iff]
      intro hall
      exact this (hall t (List.mem_cons_self _ _))
    | some g =>
      have h1 := (optStep_isSome_iff f t).1 (by simp [hs])
      obtain ⟨-, hty, -⟩ := optStep_inv hs
      simp only [Option.some_bind, ih, hty, List.mem_cons, forall_eq_or_imp]
      exact ⟨fun h => ⟨h1, h⟩, fun h => h.2⟩

theorem genTokens_of_gen {s body : Str}
    (h : genRe.FindString s = "gen:\"".toList ++ body ++ "\"".toList) (hb : body ≠ []) :
    genTokens s = Split body ',' := by
  unfold genTokens
  simp only [h]
  rw [if_neg, slice_gen]
  simp only [List.length_append, not_lt]
  have h5 : "gen:\"".toList.length = 5 := rfl
  have h6 : "\"".toList.length = 1 := rfl
  have : 0 < body.length := List.length_pos.2 hb
  omega

theorem genTokens_of_none {s : Str} (h : genRe.FindString s = []) : genTokens s = [] := by
  unfold genTokens
  simp [h]

theorem genTokens_cases (s : Str) :
    (genRe.find s = none ∧ genRe.FindString s = [] ∧ genTokens s = []) ∨
      ∃ body, genRe.FindString s = "gen:\"".toList ++ body ++ "\"".toList ∧ body ≠ [] ∧
        (∀ c ∈ body, genSet c = true) ∧ (genRe.find s).isSome = true ∧
        genTokens s = Split body ',' := by
  rcases FindString_cases genRe s with ⟨h1, h2⟩ | ⟨h1, h2, -⟩
  · exact Or.inl ⟨h1, h2, genTokens_of_none h2⟩
  · right
    obtain ⟨body, hb, hne, hall⟩ := (genRe_matches _).1 h2
    exact ⟨body, hb, hne, hall, by rw [h1]; rfl, genTokens_of_gen hb hne⟩

theorem genTokens_chars {s t : Str} (ht : t ∈ genTokens s) : ∀ c ∈ t, genSet c = true := by
  rcases genTokens_cases s with ⟨-, -, h0⟩ | ⟨body, -, -, hall, -, hg⟩
  · rw [h0] at ht
    simp at ht
  · rw [hg] at ht
    intro c hc
    exact hall c (Split_chars ht c hc)

/-- When `parseTag` returns: a `db` match exists, and every `gen` token is the
first one, a keyword, or holds a match of the `default` pattern. -/
theorem NewField_isSome_iff (c : Char) (rest : Str) :
    (NewField (c :: rest)).isSome = true ↔
      (dbRe.find rest).isSome = true ∧
        ∀ t ∈ genTokens rest,
          t = (genTokens rest).headD [] ∨ t ∈ keywords ∨ (defaultRe.find t).isSome = true := by
  rcases FindString_cases dbRe rest with ⟨h1, h2⟩ | ⟨h1, h2, -⟩
  · have hn : NewField (c :: rest) = none := by
      cases hf : NewField (c :: rest) with
      | none => rfl
      | some f =>
        obtain ⟨-, nm, hdb, -⟩ := NewField_db hf
        simp only [List.drop_succ_cons, List.drop_zero] at hdb
        rw [h2] at hdb
        simp at hdb
    simp [hn, h1]
  · obtain ⟨nm, hdb, -, -⟩ := (dbRe_matches _).1 h2
    have hs : (dbRe.find rest).isSome = true := by rw [h1]; rfl
    have hnf := @NewField_of_db (c :: rest) nm (by simp)
      (by simpa using hdb)
    simp only [List.drop_succ_cons, List.drop_zero] at hnf
    rw [hnf]
    simp only [hs, true_and]
    rcases genTokens_cases rest with ⟨-, h0, hg⟩ | ⟨body, hb, hne, -, -, hg⟩
    · rw [h0, hg]
      simp
    · rw [hb, hg, if_neg, slice_gen]
      · simp only [Option.some_bind]
        rw [optLoop_isSome_iff]
      · simp only [List.length_append, not_lt]
        have h5 : "gen:\"".toList.length = 5 := rfl
        have h6 : "\"".toList.length = 1 := rfl
        have : 0 < body.length := List.length_pos.2 hne
        omega

/-! ## An unterminated `gen` sub-annotation -/

theorem last_of_concat_eq {xs ys : Str} {a b : Char} (h : xs ++ [a] = ys ++ [b]) : a = b := by
  have := (List.append_inj' h rfl).2
  simpa using this

/-- After `gen:"`, a text without closing quote gives no `gen` match, when the
text before holds none. -/
theorem unterminated_no_gen {rest pre body : Str}
    (hr : rest = pre ++ "gen:\"".toList ++ body) (hq : '"' ∉ body)
    (hpre : ¬∃ a body' b, pre = a ++ ("gen:\"".toList ++ body' ++ "\"".toList) ++ b ∧
      body' ≠ [] ∧ ∀ x ∈ body', genSet x = true) :
    ¬∃ a body' b, rest = a ++ ("gen:\"".toList ++ body' ++ "\"".toList) ++ b ∧
      body' ≠ [] ∧ ∀ x ∈ body', genSet x = true := by
  rintro ⟨a, body', b, hab, hne, hall⟩
  -- the last character of `body'` is not `:`
  obtain ⟨ini, l, rfl⟩ : ∃ ini l, body' = ini ++ [l] := by
    rcases List.eq_nil_or_concat body' with h | ⟨ini, l, h⟩
    · exact absurd h hne
    · exact ⟨ini, l, by simpa using h⟩
  have hl : genSet l = true := hall l (by simp)
  have hXY : ∀ {p : Str}, (a ++ "gen:\"".toList ++ ini) ++ [l] = (p ++ "gen".toList) ++ [':'] →
      False := by
    intro p h
    have := last_of_concat_eq h
    subst this
    revert hl
    decide
  have e1 : rest = (a ++ "gen:\"".toList ++ (ini ++ [l])) ++ ('"' :: b) := by
    rw [hab]; simp
  have e2 : rest = (pre ++ "gen:".toList) ++ ('"' :: body) := by
    rw [hr]; simp
  rw [e1] at e2
  rcases List.append_eq_append_iff.1 e2 with ⟨m, hY, hm⟩ | ⟨m, hX, hm⟩
  · cases m with
    | nil =>
      apply hXY (p := pre)
      simp only [List.append_nil] at hY
      rw [show pre ++ "gen".toList ++ [':'] = pre ++ "gen:".toList by simp, hY]
      simp
    | cons x m' =>
      simp only [List.cons_append, List.cons.injEq] at hm
      obtain ⟨rfl, -⟩ := hm
      -- `pre ++ "gen:"` is `a ++ gen:"body'"` followed by `m'`
      have e3 : pre ++ "gen:".toList =
          (a ++ ("gen:\"".toList ++ (ini ++ [l]) ++ "\"".toList)) ++ m' := by
        rw [hY]; simp
      rcases List.append_eq_append_iff.1 e3 with ⟨k, hZ, hk⟩ | ⟨k, hp, -⟩
      · cases List.eq_nil_or_concat k with
        | inl hk0 =>
          subst hk0
          apply hpre
          refine ⟨a, ini ++ [l], [], ?_, hne, hall⟩
          simp only [List.append_nil] at hZ
          rw [← hZ]; simp
        | inr hk1 =>
          obtain ⟨k0, c, rfl⟩ := hk1
          have hc : '"' = c := by
            apply @last_of_concat_eq (a ++ "gen:\"".toList ++ (ini ++ [l])) (pre ++ k0)
            rw [show pre ++ k0 ++ [c] = pre ++ k0.concat c by simp, ← hZ]
            simp
          subst hc
          have : '"' ∈ "gen:".toList := by
            rw [hk]
            simp
          revert this
          decide
      · apply hpre
        exact ⟨a, ini ++ [l], k, by rw [hp], hne, hall⟩
  · cases m with
    | nil =>
      apply hXY (p := pre)
      simp only [List.append_nil] at hX
      rw [show pre ++ "gen".toList ++ [':'] = pre ++ "gen:".toList by simp, ← hX]
      simp
    | cons x m' =>
      simp only [List.cons_append, List.cons.injEq] at hm
      obtain ⟨-, hb⟩ := hm
      apply hq
      rw [hb]
      simp

/-! ## The builder, field by field -/

theorem NewField_name_ok {tag : Str} {f : Field} (h : NewField tag = some f) :
    f.Name ≠ [] ∧ ∀ c ∈ f.Name, nameSet c = true := by
  obtain ⟨-, nm, hdb, hne, hall, -⟩ := NewField_stages h
  obtain ⟨hn, -⟩ := NewField_fields h hdb
  rw [hn]
  exact ⟨hne, hall⟩

theorem forall₂_mem_right {α β : Type} {R : α → β → Prop} {l1 : List α} {l2 : List β}
    (h : List.Forall₂ R l1 l2) : ∀ y ∈ l2, ∃ x, x ∈ l1 ∧ R x y := by
  induction h with
  | nil => simp
  | cons hab _ ih =>
    intro y hy
    rcases List.mem_cons.1 hy with rfl | hy
    · exact ⟨_, List.mem_cons_self _ _, hab⟩
    · obtain ⟨x, hx, hr⟩ := ih y hy
      exact ⟨x, List.mem_cons_of_mem _ hx, hr⟩

theorem buildLoop_parsed {srcs : List (Option Str)} {acc fs : List Field}
    (h : buildLoop acc srcs = some fs) :
    ∃ parsed, List.Forall₂ (fun tag f => NewField tag = some f) (srcs.filterMap id) parsed ∧
      fs = acc ++ parsed.filter fun f => decide (f.Name ≠ "-".toList) := by
  induction srcs generalizing acc with
  | nil =>
    simp only [buildLoop, Option.some.injEq] at h
    exact ⟨[], by simp, by simp [h]⟩
  | cons o rest ih =>
    cases o with
    | none =>
      rw [buildLoop] at h
      obtain ⟨parsed, h1, h2⟩ := ih h
      exact ⟨parsed, by simpa using h1, h2⟩
    | some t =>
      rw [buildLoop] at h
      cases ht : NewField t with
      | none => simp [ht] at h
      | some g =>
        rw [ht] at h
        simp only [Option.some_bind] at h
        by_cases hg : g.Name = "-".toList
        · rw [if_neg (by simpa using hg)] at h
          obtain ⟨parsed, h1, h2⟩ := ih h
          refine ⟨g :: parsed, ?_, ?_⟩
          · exact List.Forall₂.cons ht h1
          · rw [h2, List.filter_cons_of_neg (by simpa using hg)]
        · rw [if_pos hg] at h
          obtain ⟨parsed, h1, h2⟩ := ih h
          refine ⟨g :: parsed, ?_, ?_⟩
          · exact List.Forall₂.cons ht h1
          · rw [h2, List.filter_cons_of_pos (by simpa using hg)]
            simp

/-! ## The clauses of scenario A -/

theorem splitGo_first (sep : Char) (t cur rest : Str) (h : sep ∉ t) :
    splitGo sep cur (t ++ sep :: rest) = (cur ++ t) :: splitGo sep [] rest := by
  induction t generalizing cur with
  | nil => simp [splitGo]
  | cons x xs ih =>
    have hx : x ≠ sep := fun e => h (by simp [e])
    have hxs : sep ∉ xs := fun e => h (List.mem_cons_of_mem _ e)
    rw [List.cons_append, splitGo, if_neg hx, ih _ hxs]
    simp

theorem Split_first (t rest : Str) (h : ',' ∉ t) :
    Split (t ++ ',' :: rest) ',' = t :: Split rest ',' := by
  unfold Split
  rw [splitGo_first ',' t [] rest h]
  simp

theorem optStep_self (f : Field) : optStep f f.Typ = some f := by
  unfold optStep
  rw [if_pos rfl]

theorem optStep_autoincrement (f : Field) (h : "autoincrement".toList ≠ f.Typ) :
    optStep f "autoincrement".toList = some { f with AutoIncrement := true } := by
  unfold optStep
  rw [if_neg h, if_pos rfl]

theorem optStep_notnull (f : Field) (h : "notnull".toList ≠ f.Typ) :
    optStep f "notnull".toList = some { f with NotNull := true } := by
  unfold optStep
  rw [if_neg h, if_neg (by decide), if_pos rfl]

theorem optStep_primary (f : Field) (h : "primary".toList ≠ f.Typ) :
    optStep f "primary".toList = some { f with Primary := true } := by
  unfold optStep
  rw [if_neg h, if_neg (by decide), if_neg (by decide), if_pos rfl]

/-! ## Claims on the parser's corner cases, the builder and the operations -/

/-- C11, the code at the failing input `db:"a",gen:"int,foo"`: the token `foo`
is not ignored, `parseTag` aborts on it (the `default` pattern finds nothing
in it and the slice `def[8:len(def)-1]` of the empty match is out of range),
while the same annotation without the token returns a field. -/
theorem unknown_token_aborts :
    genTokens ("`db:\"a\",gen:\"int,foo\"`".toList.drop 1) = ["int".toList, "foo".toList] ∧
      defaultRe.FindString "foo".toList = [] ∧
      slice [] 8 ((([] : Str).length : Int) - 1) = none ∧
      NewField "`db:\"a\",gen:\"int,foo\"`".toList = none ∧
      NewField "`db:\"a\",gen:\"int\"`".toList =
        some { Name := "a".toList, Typ := "int".toList } := by
  refine ⟨by decide, by decide, by decide, by decide, by decide⟩

/-- C12: with a `db` sub-annotation of column name `nm` and no `gen`
sub-annotation (no closed `gen:"..."` over the characters of the `gen`
pattern), in particular when the text after `gen:"` has no closing quote,
`parseTag` returns a field that has the name `nm`, an empty type and default,
and the five option flags false; the builder appends that field unless its
name is the sentinel. -/
theorem no_gen_field (c : Char) (rest nm : Str)
    (hdb : dbRe.FindString rest = "db:\"".toList ++ nm ++ "\"".toList)
    (hgen : (¬∃ a body b, rest = a ++ ("gen:\"".toList ++ body ++ "\"".toList) ++ b ∧
        body ≠ [] ∧ ∀ x ∈ body, genSet x = true) ∨
      ∃ pre body, rest = pre ++ "gen:\"".toList ++ body ∧ '"' ∉ body ∧
        ¬∃ a body' b, pre = a ++ ("gen:\"".toList ++ body' ++ "\"".toList) ++ b ∧
          body' ≠ [] ∧ ∀ x ∈ body', genSet x = true) :
    ∃ f, NewField (c :: rest) = some f ∧ f.Name = nm ∧ f.Typ = [] ∧ f.Default = [] ∧
      f.AutoIncrement = false ∧ f.NotNull = false ∧ f.Primary = false ∧ f.Uniqeu = false ∧
      f.Index = false ∧
      (nm ≠ "-".toList → ∀ acc more,
        buildLoop acc (some (c :: rest) :: more) = buildLoop (acc ++ [f]) more) := by
  have hno : ¬∃ a body b, rest = a ++ ("gen:\"".toList ++ body ++ "\"".toList) ++ b ∧
      body ≠ [] ∧ ∀ x ∈ body, genSet x = true := by
    rcases hgen with h | ⟨pre, body, hr, hq, hpre⟩
    · exact h
    · exact unterminated_no_gen hr hq hpre
  have hfind : genRe.find rest = none := by
    cases hf : genRe.find rest with
    | none => rfl
    | some r => exact absurd ((genRe_find_iff rest).1 (by simp [hf])) hno
  have hfs : genRe.FindString rest = [] := by simp [Regexp.FindString, hfind]
  have hnf := @NewField_of_db (c :: rest) nm (by simp) (by simpa using hdb)
  simp only [List.drop_succ_cons, List.drop_zero, hfs, List.length_nil, Nat.ofNat_pos,
    if_true] at hnf
  obtain ⟨h1, h2, h3, h4, h5, h6, h7⟩ := afterName_flags nm
  refine ⟨afterName nm, hnf, afterName_Name nm, h1, h2, h5, h3, h6, h4, h7, ?_⟩
  intro hs acc more
  rw [buildLoop, hnf]
  simp only [Option.some_bind]
  rw [if_pos]
  rw [afterName_Name]
  exact hs

/-- Witness of C12: a `gen` sub-annotation whose quoted section is not
closed. -/
theorem no_gen_field_witness :
    ∃ f, NewField ('\x60' :: "db:\"a\",gen:\"bigint,notnull`".toList) = some f ∧
      f.Name = "a".toList ∧ f.Typ = [] ∧ f.Default = [] ∧
      f.AutoIncrement = false ∧ f.NotNull = false ∧ f.Primary = false ∧ f.Uniqeu = false ∧
      f.Index = false ∧
      ("a".toList ≠ "-".toList → ∀ acc more,
        buildLoop acc (some ('\x60' :: "db:\"a\",gen:\"bigint,notnull`".toList) :: more) =
          buildLoop (acc ++ [f]) more) :=
  no_gen_field '\x60' "db:\"a\",gen:\"bigint,notnull`".toList "a".toList (by decide)
    (Or.inr ⟨"db:\"a\",".toList, "bigint,notnull`".toList, by decide, by decide,
      fun h => by
        have := (genRe_find_iff _).2 h
        revert this
        decide⟩)

/-- C13: every field of a built table has a non-empty name over
`[a-z0-9\-_]` that is not the sentinel `-`; the fields are the fields parsed
from the annotated source fields, in source order, minus those named `-`
(nothing else is removed). -/
theorem built_fields (tableName : Str) (srcs : List (Option Str)) (t : Table)
    (h : build tableName srcs = some t) :
    (∀ f ∈ t.Fields, f.Name ≠ [] ∧ f.Name ≠ "-".toList ∧ ∀ c ∈ f.Name, nameSet c = true) ∧
    ∃ parsed, List.Forall₂ (fun tag f => NewField tag = some f) (srcs.filterMap id) parsed ∧
      t.Fields = parsed.filter fun f => decide (f.Name ≠ "-".toList) := by
  unfold build at h
  cases hl : buildLoop [] srcs with
  | none => simp [hl] at h
  | some fs =>
    rw [hl] at h
    simp only [Option.map_some', Option.some.injEq] at h
    subst h
    obtain ⟨parsed, h1, h2⟩ := buildLoop_parsed hl
    simp only [List.nil_append] at h2
    refine ⟨?_, parsed, h1, h2⟩
    intro f hf
    rw [h2, List.mem_filter] at hf
    obtain ⟨hmem, hnm⟩ := hf
    obtain ⟨tag, -, htag⟩ := forall₂_mem_right h1 f hmem
    obtain ⟨h3, h4⟩ := NewField_name_ok htag
    exact ⟨h3, by simpa using hnm, h4⟩

/-- Witness of C13: the example struct `User`. -/
theorem built_fields_witness :
    (∀ f ∈ userTable.Fields,
      f.Name ≠ [] ∧ f.Name ≠ "-".toList ∧ ∀ c ∈ f.Name, nameSet c = true) ∧
    ∃ parsed,
      List.Forall₂ (fun tag f => NewField tag = some f) (userTags.filterMap id) parsed ∧
        userTable.Fields = parsed.filter fun f => decide (f.Name ≠ "-".toList) :=
  built_fields "user".toList userTags userTable (by decide)

set_option maxRecDepth 20000 in
/-- The two clauses of scenario A, for an annotation in which `parseTag` reads
the `db` name `n` and the `gen` body `t,autoincrement,notnull,primary`, or
`t,notnull`; and the DDL of the example struct `User`. -/
theorem scenario_of_find (n t : Str) (hid : idRe.MatchString n = false) (hc : ',' ∉ t) :
    (∀ tag : Str, tag ≠ [] →
      dbRe.FindString (tag.drop 1) = "db:\"".toList ++ n ++ "\"".toList →
      genRe.FindString (tag.drop 1) =
        "gen:\"".toList ++ (t ++ ",autoincrement,notnull,primary".toList) ++ "\"".toList →
      t ≠ "autoincrement".toList → t ≠ "notnull".toList → t ≠ "primary".toList →
      ∃ f, NewField tag = some f ∧
        f.genereateSQL =
          n ++ " ".toList ++ t ++ " AUTO_INCREMENT".toList ++ " NOT NULL".toList ++
            ",\n".toList ++ ("PRIMARY KEY(".toList ++ n ++ ")".toList)) ∧
    (∀ tag : Str, tag ≠ [] →
      dbRe.FindString (tag.drop 1) = "db:\"".toList ++ n ++ "\"".toList →
      genRe.FindString (tag.drop 1) =
        "gen:\"".toList ++ (t ++ ",notnull".toList) ++ "\"".toList →
      t ≠ "notnull".toList →
      ∃ f, NewField tag = some f ∧
        f.genereateSQL = n ++ " ".toList ++ t ++ " NOT NULL".toList) ∧
    (build "user".toList userTags = some userTable ∧
      "id bigint AUTO_INCREMENT NOT NULL".toList <:+: userTable.genereateSQL ∧
      "PRIMARY KEY(id)".toList <:+: userTable.genereateSQL ∧
      "name varchar(512) NOT NULL".toList <:+: userTable.genereateSQL ∧
      userTable.Fields.map (fun f => f.Name) =
        ["id".toList, "name".toList, "dt_created".toList, "dt_last_login".toList,
          "login".toList, "pwd_hash".toList]) := by
  have hlen : ∀ u : Str, ¬("gen:\"".toList ++ (t ++ ',' :: u) ++ "\"".toList).length < 6 := by
    intro u
    simp only [List.length_append, List.length_cons, not_lt]
    have h5 : "gen:\"".toList.length = 5 := rfl
    omega
  have hafter : afterName n = { Name := n } := by
    unfold afterName
    rw [if_neg (by simp [hid])]
  refine ⟨?_, ?_, by decide, by decide, by decide, by decide, by decide⟩
  · intro tag hne hdb hgen h1 h2 h3
    have e : t ++ ",autoincrement,notnull,primary".toList =
        t ++ ',' :: "autoincrement,notnull,primary".toList := rfl
    rw [e] at hgen
    rw [NewField_of_db hne hdb, hgen, if_neg (hlen _), slice_gen, Option.some_bind,
      Split_first _ _ hc, hafter]
    have hs : Split "autoincrement,notnull,primary".toList ',' =
        ["autoincrement".toList, "notnull".toList, "primary".toList] := by decide
    rw [hs]
    have s0 : optStep { Name := n, Typ := t } t = some { Name := n, Typ := t } :=
      optStep_self { Name := n, Typ := t }
    have s1 : optStep { Name := n, Typ := t } "autoincrement".toList =
        some { Name := n, Typ := t, AutoIncrement := true } :=
      optStep_autoincrement { Name := n, Typ := t } (Ne.symm h1)
    have s2 : optStep { Name := n, Typ := t, AutoIncrement := true } "notnull".toList =
        some { Name := n, Typ := t, AutoIncrement := true, NotNull := true } :=
      optStep_notnull { Name := n, Typ := t, AutoIncrement := true } (Ne.symm h2)
    have s3 : optStep { Name := n, Typ := t, AutoIncrement := true, NotNull := true }
          "primary".toList =
        some { Name := n, Typ := t, AutoIncrement := true, NotNull := true, Primary := true } :=
      optStep_primary { Name := n, Typ := t, AutoIncrement := true, NotNull := true }
        (Ne.symm h3)
    refine ⟨{ Name := n, Typ := t, AutoIncrement := true, NotNull := true, Primary := true },
      ?_, ?_⟩
    · show optLoop { Name := n, Typ := t }
          [t, "autoincrement".toList, "notnull".toList, "primary".toList] = _
      simp only [optLoop, s0, s1, s2, s3, Option.some_bind]
    · simp [Field.genereateSQL]
  · intro tag hne hdb hgen h2
    have e : t ++ ",notnull".toList = t ++ ',' :: "notnull".toList := rfl
    rw [e] at hgen
    rw [NewField_of_db hne hdb, hgen, if_neg (hlen _), slice_gen, Option.some_bind,
      Split_first _ _ hc, hafter]
    have hs : Split "notnull".toList ',' = ["notnull".toList] := by decide
    rw [hs]
    have s0 : optStep { Name := n, Typ := t } t = some { Name := n, Typ := t } :=
      optStep_self { Name := n, Typ := t }
    have s2 : optStep { Name := n, Typ := t } "notnull".toList =
        some { Name := n, Typ := t, NotNull := true } :=
      optStep_notnull { Name := n, Typ := t } (Ne.symm h2)
    refine ⟨{ Name := n, Typ := t, NotNull := true }, ?_, ?_⟩
    · show optLoop { Name := n, Typ := t } [t, "notnull".toList] = _
      simp only [optLoop, s0, s2, Option.some_bind]
    · simp [Field.genereateSQL]

/-- C15: when no field is flagged primary, the update query constant has the
assignment `c=:c` of every field, in field order, in its `SET` clause, and
nothing between ` WHERE ` and the closing back-quote. -/
theorem update_const_no_primary (T : Str) (t : Table)
    (h : ∀ f ∈ t.Fields, f.Primary = false) :
    t.genereateUpdateConst T =
      "update".toList ++ T ++ " = ".toList ++
        ("`".toList ++ "UPDATE ".toList ++ t.Name ++ " SET ".toList ++
          List.intercalate ", ".toList
            (t.Fields.map fun f => f.Name ++ "=:".toList ++ f.Name) ++
          " WHERE ".toList ++ "`".toList) := by
  have h1 : t.Fields.filter (fun f => f.Primary) = [] := by
    rw [List.filter_eq_nil_iff]
    intro f hf
    simp [h f hf]
  have h2 : t.Fields.filter (fun f => !f.Primary) = t.Fields := by
    rw [List.filter_eq_self]
    intro f hf
    simp [h f hf]
  simp [Table.genereateUpdateConst, updateLoop_eq, h1, h2, Join_eq_intercalate]

/-- Witness of C15: a table of the two fields `name` and `login`. -/
theorem update_const_no_primary_witness :
    ({ Name := "user".toList, Fields := [nameField, loginField] } : Table).genereateUpdateConst
        "User".toList =
      "updateUser = `UPDATE user SET name=:name, login=:login WHERE `".toList :=
  (update_const_no_primary "User".toList
    { Name := "user".toList, Fields := [nameField, loginField] } (by decide)).trans (by decide)

/-- C16, the code at the failing input, the field `Login` of the example
struct: the index declaration is appended, but the identifier in it is
`login_col`, not the column `login` (the primary-key and foreign-key clauses
name `f.Name` itself). -/
theorem index_clause_suffix :
    NewField "`db:\"login\",gen:\"varchar(512),notnull,unique,index\"`".toList =
        some loginField ∧
      loginField.genereateSQL =
        "login varchar(512) NOT NULL UNIQUE,\nINDEX(login_col)".toList ∧
      (∀ f : Field, ({ f with Index := true } : Field).genereateSQL =
        ({ f with Index := false } : Field).genereateSQL ++
          (",\n".toList ++ "INDEX(".toList ++ (f.Name ++ "_col".toList) ++ ")".toList)) := by
  refine ⟨by decide, by decide, ?_⟩
  intro f
  rw [genereateSQL_eq, genereateSQL_eq]
  simp

set_option maxRecDepth 20000 in
/-- C17, the code at the failing input `User`: the limited-select operation
splices its limit clause into `insertUser`, the insert query constant, and
`selectUser` does not occur in it; the count, insert and update operations
use the constant of their own kind. -/
theorem limit_func_uses_insert :
    Table.genereateLimitFunc "User".toList userTable =
        ("\nfunc UserSelectLimit(limit int) (models []User, err error) \x7b\n" ++
          "  query := easydb.Condition(insertUser, \" limit ? \")\n" ++
          "  err = easydb.Select(&models, query, limit)\n" ++
          "  if err != nil \x7b\n    return models, err\n  \x7d\n" ++
          "  return models, nil\n\x7d\n").toList ∧
      ¬("selectUser".toList <:+: Table.genereateLimitFunc "User".toList userTable) ∧
      "easydb.Get(&count, countUser)".toList <:+:
        Table.genereateCountFunc "User".toList userTable ∧
      "easydb.NamedExec(insertUser, model)".toList <:+:
        Table.genereateInsertFunc "User".toList userTable ∧
      "easydb.NamedExec(updateUser, model)".toList <:+:
        Table.genereateUpdateFunc "User".toList userTable := by
  refine ⟨by decide, by decide, by decide, by decide, by decide⟩

/-- C18, the code at the failing inputs: the test `name == "-"` of `parseTag`
compares the whole match (`db:"-"`), so it never holds and the `gen`
sub-annotation of a sentinel annotation is parsed: it sets the type and the
flags, and an unknown token in it makes `parseTag` abort. -/
theorem sentinel_parse_continues :
    (∀ s : Str, dbRe.FindString s ≠ "-".toList) ∧
      NewField "`db:\"-\",gen:\"bigint,notnull\"`".toList =
        some { Name := "-".toList, Typ := "bigint".toList, NotNull := true } ∧
      NewField "`db:\"-\"`".toList = some { Name := "-".toList } ∧
      NewField "`db:\"-\",gen:\"bigint,foo\"`".toList = none := by
  refine ⟨?_, by decide, by decide, by decide⟩
  intro s h
  rcases FindString_cases dbRe s with ⟨-, h0⟩ | ⟨-, hm, -⟩
  · rw [h0] at h
    simp at h
  · rw [h] at hm
    revert hm
    decide

/-- C19, the code at the failing input `db:"paid_at",gen:"datetime"`: the name
does not begin with `id_`, yet the pattern `id_([a-z0-9]+)` matches inside it
(`id_at`), so the field is foreign, and `f.Name[3:]` gives the table `d_at`. -/
theorem inner_id_is_foreign :
    NewField "`db:\"paid_at\",gen:\"datetime\"`".toList = some paidField ∧
      paidField.Name = "paid_at".toList ∧ ¬("id_".toList <+: paidField.Name) ∧
      idRe.FindString paidField.Name = "id_at".toList ∧
      paidField.Foreign = true ∧ paidField.ForeignTable = "d_at".toList := by
  refine ⟨by decide, by decide, by decide, by decide, by decide, by decide⟩

/-- C20: `parseTag` returns a field on the annotation `c :: rest` (`c` the
leading back-quote) exactly when (a) `rest` contains a `db` sub-annotation
with a non-empty name over `[a-z0-9\-_]`, and (b) `rest` contains no `gen`
sub-annotation, or every `gen` token different from the first one is one of
the five keywords or contains `default(<non-empty text>)`; in every other
case it aborts. -/
theorem parse_returns_iff (c : Char) (rest : Str) :
    ((∃ f, NewField (c :: rest) = some f) ↔
      (∃ a nm b, rest = a ++ ("db:\"".toList ++ nm ++ "\"".toList) ++ b ∧ nm ≠ [] ∧
        ∀ x ∈ nm, nameSet x = true) ∧
      ((¬∃ a body b, rest = a ++ ("gen:\"".toList ++ body ++ "\"".toList) ++ b ∧
          body ≠ [] ∧ ∀ x ∈ body, genSet x = true) ∨
        ∀ t ∈ genTokens rest, t ≠ (genTokens rest).headD [] →
          t ∈ keywords ∨
            ∃ a e b, t = a ++ ("default(".toList ++ e ++ ")".toList) ++ b ∧ e ≠ [])) ∧
    (NewField (c :: rest) = none ↔
      ¬((∃ a nm b, rest = a ++ ("db:\"".toList ++ nm ++ "\"".toList) ++ b ∧ nm ≠ [] ∧
          ∀ x ∈ nm, nameSet x = true) ∧
        ((¬∃ a body b, rest = a ++ ("gen:\"".toList ++ body ++ "\"".toList) ++ b ∧
            body ≠ [] ∧ ∀ x ∈ body, genSet x = true) ∨
          ∀ t ∈ genTokens rest, t ≠ (genTokens rest).headD [] →
            t ∈ keywords ∨
              ∃ a e b, t = a ++ ("default(".toList ++ e ++ ")".toList) ++ b ∧ e ≠ []))) := by
  have key : (∃ f, NewField (c :: rest) = some f) ↔
      (∃ a nm b, rest = a ++ ("db:\"".toList ++ nm ++ "\"".toList) ++ b ∧ nm ≠ [] ∧
        ∀ x ∈ nm, nameSet x = true) ∧
      ((¬∃ a body b, rest = a ++ ("gen:\"".toList ++ body ++ "\"".toList) ++ b ∧
          body ≠ [] ∧ ∀ x ∈ body, genSet x = true) ∨
        ∀ t ∈ genTokens rest, t ≠ (genTokens rest).headD [] →
          t ∈ keywords ∨
            ∃ a e b, t = a ++ ("default(".toList ++ e ++ ")".toList) ++ b ∧ e ≠ []) := by
    rw [← Option.isSome_iff_exists, NewField_isSome_iff, dbRe_find_iff]
    apply and_congr_right
    intro _
    constructor
    · intro h
      right
      intro t ht hne
      rcases h t ht with h | h | h
      · exact absurd h hne
      · exact Or.inl h
      · obtain ⟨a, e, b, hab, he, -⟩ := (defaultRe_find_iff t).1 h
        exact Or.inr ⟨a, e, b, hab, he⟩
    · rintro (h | h)
      · have hn : genTokens rest = [] := by
          rcases genTokens_cases rest with ⟨-, -, h0⟩ | ⟨body, -, -, -, hs, -⟩
          · exact h0
          · exact absurd ((genRe_find_iff rest).1 hs) h
        rw [hn]
        simp
      · intro t ht
        by_cases hne : t = (genTokens rest).headD []
        · exact Or.inl hne
        · rcases h t ht hne with hk | ⟨a, e, b, hab, he⟩
          · exact Or.inr (Or.inl hk)
          · refine Or.inr (Or.inr ((defaultRe_find_iff t).2 ⟨a, e, b, hab, he, ?_⟩))
            intro x hx
            apply genSet_dotSet
            apply genTokens_chars ht
            rw [hab]
            simp [hx]
  refine ⟨key, ?_⟩
  rw [← key]
  cases NewField (c :: rest) <;> simp

/-! ## The match at the head of a text, and skipping what cannot start one -/

theorem quote_prefix_eq {q : Char} {a b x y : Str} (ha : q ∉ a) (hb : q ∉ b)
    (h : a ++ q :: x = b ++ q :: y) : a = b := by
  induction a generalizing b with
  | nil =>
    cases b with
    | nil => rfl
    | cons c b =>
      simp only [List.nil_append, List.cons_append, List.cons.injEq] at h
      exact absurd (by simp [h.1]) hb
  | cons c a ih =>
    cases b with
    | nil =>
      simp only [List.nil_append, List.cons_append, List.cons.injEq] at h
      exact absurd (by simp [h.1]) ha
    | cons d b =>
      simp only [List.cons_append, List.cons.injEq] at h
      rw [h.1, ih (fun e => ha (List.mem_cons_of_mem _ e))
        (fun e => hb (List.mem_cons_of_mem _ e)) h.2]

/-- A pattern whose matches are `P ++ x ++ [q]`, `x` a non-empty run of `set`
and `q` outside `set`: at the head of a text, the match is up to the first
`q`. -/
theorem find_quoted {re : Regexp} {P : Str} {q : Char} {set : Char → Bool}
    (hshape : ∀ r, matchesWhole re r = true ↔
      ∃ x, r = P ++ x ++ [q] ∧ x ≠ [] ∧ ∀ c ∈ x, set c = true)
    (hq : set q = false) (x tl : Str) (hx : x ≠ []) (hall : ∀ c ∈ x, set c = true) :
    re.find (P ++ x ++ [q] ++ tl) = some (P ++ x ++ [q]) := by
  have hm : matchesWhole re (P ++ x ++ [q]) = true := (hshape _).2 ⟨x, rfl, hx, hall⟩
  have hqx : q ∉ x := fun e => by
    have := hall q e
    rw [hq] at this
    exact Bool.false_ne_true this
  have hlp : longestPrefix re (P ++ x ++ [q] ++ tl) = some (P ++ x ++ [q]).length := by
    cases hl : longestPrefix re (P ++ x ++ [q] ++ tl) with
    | none =>
      have := longestPrefix_none hl (P ++ x ++ [q]).length (by simp)
      rw [List.take_left] at this
      rw [hm] at this
      exact absurd this (by simp)
    | some n =>
      obtain ⟨h1, h2, h3⟩ := longestPrefix_some hl
      have hge := h3 (P ++ x ++ [q]).length (by simp) (by rw [List.take_left]; exact hm)
      obtain ⟨x', hx', -, hall'⟩ := (hshape _).1 h2
      have hqx' : q ∉ x' := fun e => by
        have := hall' q e
        rw [hq] at this
        exact Bool.false_ne_true this
      obtain ⟨d, hsplit⟩ : ∃ d, P ++ x ++ [q] ++ tl = (P ++ x' ++ [q]) ++ d :=
        ⟨(P ++ x ++ [q] ++ tl).drop n, by rw [← hx', List.take_append_drop]⟩
      have hxx : x' = x := by
        have hpq : P ++ (x' ++ q :: d) = P ++ (x ++ q :: tl) := by
          simpa using hsplit.symm
        exact quote_prefix_eq hqx' hqx (List.append_cancel_left hpq)
      subst hxx
      have hn : (List.take n (P ++ x' ++ [q] ++ tl)).length = n := by
        rw [List.length_take]
        exact Nat.min_eq_left h1
      rw [hx'] at hn
      rw [hn]
  cases hs : P ++ x ++ [q] ++ tl with
  | nil =>
    have : (P ++ x ++ [q] ++ tl).length = 0 := by rw [hs]; rfl
    simp at this
  | cons c cs =>
    rw [hs] at hlp
    rw [Regexp.find, hlp, ← hs]
    show some (List.take (P ++ x ++ [q]).length (P ++ x ++ [q] ++ tl)) = _
    rw [List.take_left]

theorem dbRe_find_head (n tl : Str) (hn : n ≠ []) (hall : ∀ c ∈ n, nameSet c = true) :
    dbRe.FindString ("db:\"".toList ++ n ++ "\"".toList ++ tl) =
      "db:\"".toList ++ n ++ "\"".toList := by
  unfold Regexp.FindString
  rw [show "\"".toList = ['"'] from rfl,
    find_quoted (fun r => by simpa using dbRe_matches r) (by decide) n tl hn hall]
  rfl

theorem genRe_find_head (body tl : Str) (hb : body ≠ [])
    (hall : ∀ c ∈ body, genSet c = true) :
    genRe.FindString ("gen:\"".toList ++ body ++ "\"".toList ++ tl) =
      "gen:\"".toList ++ body ++ "\"".toList := by
  unfold Regexp.FindString
  rw [show "\"".toList = ['"'] from rfl,
    find_quoted (fun r => by simpa using genRe_matches r) (by decide) body tl hb hall]
  rfl

/-- No `gen` match starts where the text does not begin with `gen:"`. -/
theorem genRe_skip (c : Char) (u : Str)
    (h : ¬∃ y, c :: u = "gen:\"".toList ++ y) : genRe.find (c :: u) = genRe.find u := by
  have hl : longestPrefix genRe (c :: u) = none := by
    cases hl : longestPrefix genRe (c :: u) with
    | none => rfl
    | some n =>
      obtain ⟨-, h2, -⟩ := longestPrefix_some hl
      obtain ⟨body, hb, -, -⟩ := (genRe_matches _).1 h2
      exfalso
      apply h
      refine ⟨body ++ ("\"".toList ++ (c :: u).drop n), ?_⟩
      have := (List.take_append_drop n (c :: u)).symm
      rw [hb] at this
      simpa only [List.append_assoc] using this
  rw [Regexp.find, hl]

/-- A run of name characters followed by a quote does not begin with
`gen:"`. -/
theorem name_not_gen_start (u w : Str) (hu : ∀ c ∈ u, nameSet c = true) :
    ¬∃ y, u ++ '"' :: w = "gen:\"".toList ++ y := by
  rintro ⟨y, hy⟩
  have e : "gen:\"".toList = ['g', 'e', 'n', ':', '"'] := rfl
  rw [e] at hy
  match u, hu with
  | [], _ => simp at hy
  | [_], _ => simp at hy
  | [_, _], _ => simp at hy
  | [_, _, _], _ => simp at hy
  | _ :: _ :: _ :: c4 :: _, hu =>
    simp only [List.cons_append, List.cons.injEq] at hy
    have := hu c4 (by simp)
    rw [hy.2.2.2.1] at this
    revert this
    decide

theorem genRe_skip_name (u w : Str) (hu : ∀ c ∈ u, nameSet c = true) :
    genRe.find (u ++ '"' :: w) = genRe.find w := by
  induction u with
  | nil =>
    exact genRe_skip '"' w (name_not_gen_start [] w (by simp))
  | cons c u ih =>
    show genRe.find (c :: (u ++ '"' :: w)) = _
    rw [genRe_skip c (u ++ '"' :: w) (name_not_gen_start (c :: u) w hu)]
    exact ih fun x hx => hu x (List.mem_cons_of_mem _ hx)

/-- In `db:"n",gen:"body"` and what follows, the `gen` match is
`gen:"body"`. -/
theorem genRe_find_after_db (n body tl : Str) (hn : ∀ c ∈ n, nameSet c = true)
    (hb : body ≠ []) (hall : ∀ c ∈ body, genSet c = true) :
    genRe.FindString
        ("db:\"".toList ++ n ++ "\",".toList ++ ("gen:\"".toList ++ body ++ "\"".toList ++ tl)) =
      "gen:\"".toList ++ body ++ "\"".toList := by
  have e : "db:\"".toList ++ n ++ "\",".toList ++
      ("gen:\"".toList ++ body ++ "\"".toList ++ tl) =
      'd' :: 'b' :: ':' :: '"' ::
        (n ++ '"' :: ',' :: ("gen:\"".toList ++ body ++ "\"".toList ++ tl)) := by
    simp
  have hfind : genRe.find ("db:\"".toList ++ n ++ "\",".toList ++
      ("gen:\"".toList ++ body ++ "\"".toList ++ tl)) =
      genRe.find ("gen:\"".toList ++ body ++ "\"".toList ++ tl) := by
    rw [e, genRe_skip 'd' _ (by rintro ⟨y, hy⟩; simp at hy),
      genRe_skip 'b' _ (by rintro ⟨y, hy⟩; simp at hy),
      genRe_skip ':' _ (by rintro ⟨y, hy⟩; simp at hy),
      genRe_skip '"' _ (by rintro ⟨y, hy⟩; simp at hy),
      genRe_skip_name n _ hn,
      genRe_skip ',' _ (by rintro ⟨y, hy⟩; simp at hy)]
  have := genRe_find_head body tl hb hall
  unfold Regexp.FindString at this ⊢
  rw [hfind]
  exact this

/-! ## The type token, the option flags and scenario A -/

theorem no_gen_FindString {s : Str}
    (h : ¬∃ a body b, s = a ++ ("gen:\"".toList ++ body ++ "\"".toList) ++ b ∧ body ≠ [] ∧
      ∀ x ∈ body, genSet x = true) : genRe.FindString s = [] := by
  rcases genTokens_cases s with ⟨-, h0, -⟩ | ⟨body, -, -, -, hs, -⟩
  · exact h0
  · exact absurd ((genRe_find_iff s).1 hs) h

/-- C8 fails as stated: in `db:"id",gen:"int unsigned,notnull"` the first
`gen` token is `int unsigned`, yet `parseTag` returns a field whose type is
empty: the space is not in the character set of the `gen` pattern, so no `gen`
sub-annotation is found. -/
theorem type_token_counterexample :
    "`db:\"id\",gen:\"int unsigned,notnull\"`".toList =
        "`db:\"id\",".toList ++ ("gen:\"".toList ++ "int unsigned,notnull".toList ++ "\"".toList) ++
          "`".toList ∧
      Split "int unsigned,notnull".toList ',' = ["int unsigned".toList, "notnull".toList] ∧
      NewField "`db:\"id\",gen:\"int unsigned,notnull\"`".toList = some { Name := "id".toList } ∧
      ({ Name := "id".toList } : Field).Typ ≠ "int unsigned".toList := by
  refine ⟨by decide, by decide, by decide, by decide⟩

/-- C8, amended: on a returned field, when `parseTag` finds a `gen`
sub-annotation `gen:"<body>"` (the leftmost text of that form whose body is a
non-empty run over `[a-z0-9\-_,'()]`), the type is the first comma-separated
piece of the body, verbatim; when the annotation contains no text of that
form, the type stays empty. -/
theorem type_token_first (tag : Str) (f : Field) (hf : NewField tag = some f) :
    (∀ body t0 rest, genRe.FindString (tag.drop 1) = "gen:\"".toList ++ body ++ "\"".toList →
      Split body ',' = t0 :: rest → f.Typ = t0) ∧
    ((¬∃ a body b, tag.drop 1 = a ++ ("gen:\"".toList ++ body ++ "\"".toList) ++ b ∧
        body ≠ [] ∧ ∀ x ∈ body, genSet x = true) →
      f.Typ = []) :=
  ⟨(type_of_gen tag f hf).1, fun h => (type_of_gen tag f hf).2 (no_gen_FindString h)⟩

/-- Witness of C8: the field `Name` of the example struct, of type
`varchar(512)`. -/
theorem type_token_first_witness :
    NewField "`db:\"name\",gen:\"varchar(512),notnull\"`".toList = some nameField ∧
      nameField.Typ = "varchar(512)".toList :=
  ⟨by decide,
    (type_token_first "`db:\"name\",gen:\"varchar(512),notnull\"`".toList nameField
      (by decide)).1 "varchar(512),notnull".toList "varchar(512)".toList ["notnull".toList]
      (by decide) (by decide)⟩

/-- C9 fails as stated, twice.  In `db:"a",gen:"notnull,notnull"` the keyword
`notnull` occurs among the tokens after the first, yet the returned field has
`NotNull = false`: the option loop skips every token equal to the type.  In
`db:"id",gen:"int unsigned,notnull"` the keyword `notnull` is a later token,
different from the first, yet the returned field has `NotNull = false`: the
space is not in the character set of the `gen` pattern, so no `gen`
sub-annotation is found. -/
theorem flags_counterexample :
    (genRe.FindString ("`db:\"a\",gen:\"notnull,notnull\"`".toList.drop 1) =
        "gen:\"".toList ++ "notnull,notnull".toList ++ "\"".toList ∧
      Split "notnull,notnull".toList ',' = ["notnull".toList, "notnull".toList] ∧
      NewField "`db:\"a\",gen:\"notnull,notnull\"`".toList =
        some { Name := "a".toList, Typ := "notnull".toList } ∧
      ¬(({ Name := "a".toList, Typ := "notnull".toList } : Field).NotNull = true ↔
        "notnull".toList ∈ ["notnull".toList])) ∧
    ("`db:\"id\",gen:\"int unsigned,notnull\"`".toList =
        "`db:\"id\",".toList ++ ("gen:\"".toList ++ "int unsigned,notnull".toList ++ "\"".toList) ++
          "`".toList ∧
      Split "int unsigned,notnull".toList ',' = ["int unsigned".toList, "notnull".toList] ∧
      NewField "`db:\"id\",gen:\"int unsigned,notnull\"`".toList = some { Name := "id".toList } ∧
      ¬(({ Name := "id".toList } : Field).NotNull = true ↔
        "notnull".toList ∈ ["notnull".toList] ∧ "notnull".toList ≠ "int unsigned".toList)) := by
  refine ⟨⟨by decide, by decide, by decide, by decide⟩,
    ⟨by decide, by decide, by decide, by decide⟩⟩

/-- C9, amended: on a returned field, when `parseTag` finds a `gen`
sub-annotation `gen:"<body>"` (the leftmost text of that form whose body is a
non-empty run over `[a-z0-9\-_,'()]`) with tokens `t0, rest`, each of the five
flags is true iff its keyword occurs in `rest` and is different from the first
token `t0`; when the annotation contains no text of that form, the five flags
are false. -/
theorem flags_iff_keywords (tag : Str) (f : Field) (hf : NewField tag = some f) :
    (∀ body t0 rest, genRe.FindString (tag.drop 1) = "gen:\"".toList ++ body ++ "\"".toList →
      Split body ',' = t0 :: rest →
      (f.AutoIncrement = true ↔ "autoincrement".toList ∈ rest ∧ "autoincrement".toList ≠ t0) ∧
      (f.NotNull = true ↔ "notnull".toList ∈ rest ∧ "notnull".toList ≠ t0) ∧
      (f.Primary = true ↔ "primary".toList ∈ rest ∧ "primary".toList ≠ t0) ∧
      (f.Uniqeu = true ↔ "unique".toList ∈ rest ∧ "unique".toList ≠ t0) ∧
      (f.Index = true ↔ "index".toList ∈ rest ∧ "index".toList ≠ t0)) ∧
    ((¬∃ a body b, tag.drop 1 = a ++ ("gen:\"".toList ++ body ++ "\"".toList) ++ b ∧
        body ≠ [] ∧ ∀ x ∈ body, genSet x = true) →
      f.AutoIncrement = false ∧ f.NotNull = false ∧ f.Primary = false ∧ f.Uniqeu = false ∧
        f.Index = false) := by
  refine ⟨fun body t0 rest hgen ht => flags_of_gen tag body t0 rest f hgen ht hf, ?_⟩
  intro h
  have h0 := no_gen_FindString h
  obtain ⟨-, nm, -, -, -, hstage⟩ := NewField_stages hf
  rcases hstage with ⟨-, rfl⟩ | ⟨body, hb, -, -, -⟩
  · obtain ⟨-, -, c3, c4, c5, c6, c7⟩ := afterName_flags nm
    exact ⟨c5, c3, c6, c4, c7⟩
  · rw [h0] at hb
    simp at hb

/-- Witness of C9: the field `ID` of the example struct. -/
theorem flags_iff_keywords_witness :
    NewField "`db:\"id\",gen:\"bigint,autoincrement,notnull,primary\"`".toList = some userID ∧
      ((userID.AutoIncrement = true ↔
        "autoincrement".toList ∈ ["autoincrement".toList, "notnull".toList, "primary".toList] ∧
          "autoincrement".toList ≠ "bigint".toList) ∧
      (userID.NotNull = true ↔
        "notnull".toList ∈ ["autoincrement".toList, "notnull".toList, "primary".toList] ∧
          "notnull".toList ≠ "bigint".toList) ∧
      (userID.Primary = true ↔
        "primary".toList ∈ ["autoincrement".toList, "notnull".toList, "primary".toList] ∧
          "primary".toList ≠ "bigint".toList) ∧
      (userID.Uniqeu = true ↔
        "unique".toList ∈ ["autoincrement".toList, "notnull".toList, "primary".toList] ∧
          "unique".toList ≠ "bigint".toList) ∧
      (userID.Index = true ↔
        "index".toList ∈ ["autoincrement".toList, "notnull".toList, "primary".toList] ∧
          "index".toList ≠ "bigint".toList)) :=
  ⟨by decide,
    (flags_iff_keywords "`db:\"id\",gen:\"bigint,autoincrement,notnull,primary\"`".toList userID
      (by decide)).1 "bigint,autoincrement,notnull,primary".toList "bigint".toList
      ["autoincrement".toList, "notnull".toList, "primary".toList] (by decide) (by decide)⟩

/-- C14 fails as stated, twice.  The column name `id_user` is accepted by the
annotation grammar, but `db:"id_user",gen:"bigint,notnull"` does not render to
exactly `id_user bigint NOT NULL`: the foreign-key constraint inferred from
the name follows.  The type `notnull` is accepted by the annotation grammar,
but `db:"a",gen:"notnull,notnull"` renders to `a notnull`, not to
`a notnull NOT NULL`: the option equal to the type is skipped. -/
theorem scenario_counterexample :
    (NewField "`db:\"id_user\",gen:\"bigint,notnull\"`".toList = some refField ∧
      refField.genereateSQL =
        ("id_user bigint NOT NULL,\n" ++
          "CONSTRAINT FOREIGN KEY (id_user) REFERENCES user(id)").toList ∧
      refField.genereateSQL ≠ "id_user bigint NOT NULL".toList) ∧
    (NewField "`db:\"a\",gen:\"notnull,notnull\"`".toList =
        some { Name := "a".toList, Typ := "notnull".toList } ∧
      ({ Name := "a".toList, Typ := "notnull".toList } : Field).genereateSQL =
        "a notnull".toList ∧
      ({ Name := "a".toList, Typ := "notnull".toList } : Field).genereateSQL ≠
        "a notnull NOT NULL".toList) := by
  refine ⟨⟨by decide, by decide, by decide⟩, ⟨by decide, by decide, by decide⟩⟩

/-- C14, amended: let `n` be a column name accepted by the annotation grammar
(a non-empty run over `[a-z0-9\-_]`) in which `id_` followed by a lowercase
letter or digit does not occur, and `t` a type accepted by it (a run over
`[a-z0-9\-_'()]`, the `gen` characters without the comma).  An annotation
`db:"n",gen:"t,autoincrement,notnull,primary"` (behind its leading character
`c`, and followed by any text `tl`) parses, when `t` is none of
`autoincrement`, `notnull`, `primary`, to a field whose clause is
`n t AUTO_INCREMENT NOT NULL`, a comma and a newline, `PRIMARY KEY(n)`; an
annotation `db:"n",gen:"t,notnull"` parses, when `t` is not `notnull`, to a
field whose clause is exactly `n t NOT NULL`.  For the example struct `User`
and the table name `user`, the DDL contains `id bigint AUTO_INCREMENT NOT NULL`,
`PRIMARY KEY(id)` and `name varchar(512) NOT NULL`, and the columns are `id`,
`name`, `dt_created`, `dt_last_login`, `login`, `pwd_hash`, in that order. -/
theorem scenario_clauses (c : Char) (n t tl : Str) (hn : n ≠ [])
    (hnall : ∀ x ∈ n, nameSet x = true) (htall : ∀ x ∈ t, genSet x = true) (hc : ',' ∉ t)
    (hid : ¬∃ a sfx b, n = a ++ ("id_".toList ++ sfx) ++ b ∧ sfx ≠ [] ∧
      ∀ x ∈ sfx, lowerDigit x = true) :
    (t ≠ "autoincrement".toList → t ≠ "notnull".toList → t ≠ "primary".toList →
      ∃ f,
        NewField (c :: ("db:\"".toList ++ n ++ "\",".toList ++
          ("gen:\"".toList ++ (t ++ ",autoincrement,notnull,primary".toList) ++ "\"".toList ++
            tl))) = some f ∧
        f.genereateSQL =
          n ++ " ".toList ++ t ++ " AUTO_INCREMENT".toList ++ " NOT NULL".toList ++
            ",\n".toList ++ ("PRIMARY KEY(".toList ++ n ++ ")".toList)) ∧
    (t ≠ "notnull".toList →
      ∃ f,
        NewField (c :: ("db:\"".toList ++ n ++ "\",".toList ++
          ("gen:\"".toList ++ (t ++ ",notnull".toList) ++ "\"".toList ++ tl))) = some f ∧
        f.genereateSQL = n ++ " ".toList ++ t ++ " NOT NULL".toList) ∧
    (build "user".toList userTags = some userTable ∧
      "id bigint AUTO_INCREMENT NOT NULL".toList <:+: userTable.genereateSQL ∧
      "PRIMARY KEY(id)".toList <:+: userTable.genereateSQL ∧
      "name varchar(512) NOT NULL".toList <:+: userTable.genereateSQL ∧
      userTable.Fields.map (fun f => f.Name) =
        ["id".toList, "name".toList, "dt_created".toList, "dt_last_login".toList,
          "login".toList, "pwd_hash".toList]) := by
  have hidm : idRe.MatchString n = false := by
    cases hm : idRe.MatchString n with
    | false => rfl
    | true => exact absurd ((idRe_find_iff n).1 hm) hid
  obtain ⟨h1, h2, h3⟩ := scenario_of_find n t hidm hc
  have hdb : ∀ u : Str, dbRe.FindString
      ((c :: ("db:\"".toList ++ n ++ "\",".toList ++ u)).drop 1) =
      "db:\"".toList ++ n ++ "\"".toList := by
    intro u
    have e : (c :: ("db:\"".toList ++ n ++ "\",".toList ++ u)).drop 1 =
        "db:\"".toList ++ n ++ "\"".toList ++ (',' :: u) := by
      simp
    rw [e]
    exact dbRe_find_head n _ hn hnall
  have hgen : ∀ (body tl' : Str), body ≠ [] → (∀ x ∈ body, genSet x = true) →
      genRe.FindString ((c :: ("db:\"".toList ++ n ++ "\",".toList ++
        ("gen:\"".toList ++ body ++ "\"".toList ++ tl'))).drop 1) =
      "gen:\"".toList ++ body ++ "\"".toList := by
    intro body tl' hb hall
    exact genRe_find_after_db n body tl' hnall hb hall
  have hbody : ∀ k : Str, (∀ x ∈ k, genSet x = true) →
      t ++ ',' :: k ≠ [] ∧ ∀ x ∈ t ++ ',' :: k, genSet x = true := by
    intro k hk
    refine ⟨by simp, ?_⟩
    intro x hx
    rcases List.mem_append.1 hx with hx | hx
    · exact htall x hx
    · rcases List.mem_cons.1 hx with rfl | hx
      · decide
      · exact hk x hx
  refine ⟨?_, ?_, h3⟩
  · intro k1 k2 k3
    obtain ⟨hb, hall⟩ := hbody "autoincrement,notnull,primary".toList (by decide)
    exact h1 _ (by simp) (hdb _) (hgen _ tl hb hall) k1 k2 k3
  · intro k2
    obtain ⟨hb, hall⟩ := hbody "notnull".toList (by decide)
    exact h2 _ (by simp) (hdb _) (hgen _ tl hb hall) k2

/-- Witness of C14: the fields `ID` and `Name` of the example struct. -/
theorem scenario_clauses_witness :
    (∃ f, NewField "`db:\"id\",gen:\"bigint,autoincrement,notnull,primary\"`".toList = some f ∧
      f.genereateSQL = "id bigint AUTO_INCREMENT NOT NULL,\nPRIMARY KEY(id)".toList) ∧
    (∃ f, NewField "`db:\"name\",gen:\"varchar(512),notnull\"`".toList = some f ∧
      f.genereateSQL = "name varchar(512) NOT NULL".toList) :=
  ⟨(scenario_clauses '\x60' "id".toList "bigint".toList "`".toList (by decide) (by decide)
      (by decide) (by decide)
      (fun h => by
        have := (idRe_find_iff _).2 h
        revert this
        decide)).1 (by decide) (by decide) (by decide),
    (scenario_clauses '\x60' "name".toList "varchar(512)".toList "`".toList (by decide)
      (by decide) (by decide) (by decide)
      (fun h => by
        have := (idRe_find_iff _).2 h
        revert this
        decide)).2.1 (by decide)⟩

end ModelMaker
